import Mathlib

/-!
Verification development for the cast-reconciliation pipeline of the
emby-toolkit repository.  The definitions below are a shallow embedding of
`src/core_processor.py`, mainly of `MediaProcessor._process_cast_list_from_api`
(lines 888-1340), its helpers `_find_person_in_map_by_douban_id`,
`_find_person_in_map_by_imdb_id`, `_get_actor_metadata_from_cache`, the
module-level `_aggregate_series_cast_from_tmdb_data` (lines 239-270), and the
session-level error handling of `_process_item_core_logic_api_version`
(lines 740-885).

External collaborators (Emby, TMDb, Douban, the AI translator and the two
database manager classes, which live in modules not present under `src/`)
are modelled as oracle functions; where their behaviour decides a claim the
definition carries a doc comment starting with `Modelled from the spec:`.
-/

namespace EmbyToolkit

/-! ### Python string primitives

The matching logic compares names with `.lower().strip()`.  We model the
relevant fragment of Python string semantics on explicit character lists so
that every definition evaluates inside the kernel. -/

/-- Lower-case a character, covering the ASCII range that `str.lower`
affects for the latin alphabet (CJK characters are untouched, as in Python). -/
def lowerChar (c : Char) : Char :=
  if 65 ≤ c.toNat ∧ c.toNat ≤ 90 then Char.ofNat (c.toNat + 32) else c

/-- Whitespace recognised by `str.strip`. -/
def isSpaceChar (c : Char) : Bool :=
  c == ' ' || c == '\t' || c == '\n' || c == '\r' || c == '\x0b' || c == '\x0c'

/-- Drop leading and trailing whitespace from a character list (`str.strip`). -/
def stripChars (l : List Char) : List Char :=
  ((l.dropWhile isSpaceChar).reverse.dropWhile isSpaceChar).reverse

/-- Model of the Python expression `s.lower().strip()` used by the name
comparisons in the one-to-one match stage. -/
def pyNorm (s : String) : List Char :=
  stripChars (s.data.map lowerChar)

/-- Decimal digit value of a character, when it is a digit. -/
def isDigitChar (c : Char) : Bool :=
  48 ≤ c.toNat && c.toNat ≤ 57

/-- Numeric value of a digit list, most significant first. -/
def natOfDigits (l : List Char) : Nat :=
  l.foldl (fun n c => 10 * n + (c.toNat - 48)) 0

/-- Model of Python `int(s)` for strings: optional surrounding whitespace,
optional sign, then at least one digit; anything else raises `ValueError`
(`none` here). -/
def pyParseInt (s : String) : Option Int :=
  match stripChars s.data with
  | [] => none
  | c :: rest =>
    let signed : Bool × List Char :=
      if c = '-' then (true, rest)
      else if c = '+' then (false, rest)
      else (false, c :: rest)
    match signed with
    | (neg, ds) =>
      if ds ≠ [] ∧ ds.all isDigitChar then
        some ((if neg then -1 else 1) * (natOfDigits ds : Int))
      else none

/-- Possible shapes of the configured `max_actors_to_process` value as read
from the config dictionary (`self.config.get(..., 30)`). -/
inductive ConfigVal where
  | intVal (n : Int)
  | strVal (s : String)
  | nullVal
  | absent
deriving DecidableEq, Repr

/-- Model of lines 1002-1008 and 1193-1199 of `core_processor.py`: read the
configured cap with default 30, coerce with `int(...)`, replace a
non-positive result by 30, and fall back to 30 on `ValueError`/`TypeError`. -/
def parseMaxActors (v : ConfigVal) : Int :=
  match v with
  | .absent => 30
  | .intVal n => if n ≤ 0 then 30 else n
  | .strVal s =>
    match pyParseInt s with
    | some n => if n ≤ 0 then 30 else n
    | none => 30
  | .nullVal => 30

/-- Model of the Python idiom `a or b` on optional strings: a `None` or empty
first operand yields the second operand. -/
def pyOr (a b : Option String) : Option String :=
  match a with
  | some s => if s = "" then b else some s
  | none => b

/-- Truthiness filter for an optional string: `some ""` and `none` are falsy. -/
def truthyOpt (a : Option String) : Option String :=
  match a with
  | some s => if s = "" then none else some s
  | none => none

/-! ### Association-list helpers

Python dictionaries keyed by id strings are modelled as insertion-ordered
association lists; assignment to an existing key replaces the value in
place, assignment to a fresh key appends. -/

/-- Whether an association list has a key. -/
def assocHas [DecidableEq κ] : List (κ × α) → κ → Bool
  | [], _ => false
  | (k', _) :: rest, k => if k' = k then true else assocHas rest k

/-- Python dict assignment `m[k] = v`: replace in place or append. -/
def assocSet [DecidableEq κ] : List (κ × α) → κ → α → List (κ × α)
  | [], k, v => [(k, v)]
  | (k', v') :: rest, k, v =>
    if k' = k then (k', v) :: rest else (k', v') :: assocSet rest k v

/-- Python `m.get(k)`. -/
def assocGet? [DecidableEq κ] : List (κ × α) → κ → Option α
  | [], _ => none
  | (k', v') :: rest, k => if k' = k then some v' else assocGet? rest k

/-- Python `m.get(k, d)` for string-valued dicts. -/
def dictGetD (m : List (String × String)) (k d : String) : String :=
  (assocGet? m k).getD d

/-- Python `m.update(pairs)`. -/
def dictUpdateAll (m : List (String × String)) (pairs : List (String × String)) :
    List (String × String) :=
  pairs.foldl (fun acc p => assocSet acc p.1 p.2) m

/-! ### Data model -/

/-- A cast member of the working set of `_process_cast_list_from_api`
(one of the Python dictionaries kept in `local_cast_list` /
`final_cast_map`), restricted to the keys the pipeline reads or writes. -/
structure CastActor where
  /-- The resolved TMDb id string, key `id` (always set by the adaptation
  layer or the synthesis of a newly added actor). -/
  id : String
  /-- Key `name`; `none` models an absent key or a Python `None`. -/
  name : Option String
  /-- Key `original_name`. -/
  originalName : Option String
  /-- Key `character`. -/
  character : Option String
  /-- Key `order` (an integer rank when present). -/
  order : Option Int
  /-- Key `imdb_id`. -/
  imdbId : Option String
  /-- Key `douban_id`. -/
  doubanId : Option String
  /-- Key `emby_person_id`, injected by the adaptation layer. -/
  embyPersonId : Option String
  /-- Key `_is_newly_added`, set only on actors synthesised in match
  stages 2-4. -/
  newlyAdded : Bool
deriving DecidableEq, Repr

/-- A raw record of `tmdb_cast_people` (the authoritative cast source),
which can be TMDb-shaped (lower-case keys) or Emby-People-shaped
(capitalised keys), as consumed by lines 921-949. -/
structure RawCastRecord where
  /-- `str(person_data.get("id"))` when the key `id` is present; a record
  whose `id` value is Python `None` therefore carries `some "None"`. -/
  idField : Option String
  /-- `person_data.get("ProviderIds", {}).get("Tmdb")`. -/
  providerTmdbId : Option String
  /-- Key `name`. -/
  name : Option String
  /-- Key `Name` (Emby shape). -/
  capName : Option String
  /-- Key `character`. -/
  character : Option String
  /-- Key `Role` (Emby shape). -/
  role : Option String
  /-- Key `original_name`. -/
  originalName : Option String
  /-- Key `order`. -/
  order : Option Int
  /-- Key `imdb_id`. -/
  imdbId : Option String
  /-- Key `douban_id`. -/
  doubanId : Option String
deriving DecidableEq, Repr

/-- An entry of `emby_cast_people`, restricted to the two fields read when
building `emby_tmdb_to_person_id_map` (lines 913-916). -/
structure EmbyPerson where
  /-- `person.get("ProviderIds", {}).get("Tmdb")`. -/
  tmdbProviderId : Option String
  /-- `person.get("Id")`. -/
  embyId : Option String
deriving DecidableEq, Repr

/-- A regional (Douban) candidate as produced by
`actor_utils.format_douban_cast`; the pipeline reads exactly these keys. -/
structure DoubanCandidate where
  /-- Key `Name` (localised name). -/
  name : Option String
  /-- Key `OriginalName`. -/
  originalName : Option String
  /-- Key `Role`. -/
  role : Option String
  /-- Key `DoubanCelebrityId`. -/
  doubanCelebrityId : Option String
deriving DecidableEq, Repr

/-- A row of the `person_identity_map` table, restricted to the columns the
pipeline reads. -/
structure IdentityRow where
  tmdbPersonId : Option String
  imdbId : Option String
  doubanCelebrityId : Option String
  primaryName : Option String
deriving DecidableEq, Repr

/-- A row of the `ActorMetadata` cache table, restricted to the descriptive
fields the synthesis of a new actor copies (the float-valued `popularity`
column is not modelled; no claim mentions it). -/
structure ActorMetadata where
  originalName : Option String
  gender : Int
  profilePath : Option String
  adult : Bool
deriving DecidableEq, Repr

/-- The argument dictionary handed to `ActorDBManager.upsert_person`. -/
structure UpsertPayload where
  tmdbId : String
  name : Option String
  imdbId : Option String
  doubanId : Option String
deriving DecidableEq, Repr

/-- Observable effects of one pipeline run: identity-store lookups and
writes, network calls, and translation-cache traffic. -/
inductive Event where
  /-- `SELECT ... WHERE douban_celebrity_id = ?` in
  `_find_person_in_map_by_douban_id`. -/
  | lookupDoubanId (id : String)
  /-- `SELECT ... WHERE imdb_id = ?` in `_find_person_in_map_by_imdb_id`. -/
  | lookupImdbId (id : String)
  /-- `SELECT * FROM ActorMetadata` in `_get_actor_metadata_from_cache`. -/
  | metaCacheRead (tmdbId : String)
  /-- Network call `douban_api.celebrity_details`. -/
  | doubanCelebrityDetails (id : String)
  /-- Network call `tmdb_handler.find_person_by_external_id`. -/
  | tmdbFindByExternalId (imdbId : String)
  /-- `actor_db_manager.upsert_person`. -/
  | upsertPerson (p : UpsertPayload)
  /-- `actor_db_manager.get_translation_from_db`. -/
  | translationCacheRead (t : String)
  /-- Network call `ai_translator.batch_translate`. -/
  | translateApiCall (ts : List String)
  /-- `actor_db_manager.save_translation_to_db`. -/
  | translationCacheWrite (original translated : String)
deriving DecidableEq, Repr

/-- Events that look a regional candidate up, in the identity store or over
the network (match stages 2-4). -/
def Event.isCandidateLookup : Event → Bool
  | .lookupDoubanId _ => true
  | .lookupImdbId _ => true
  | .doubanCelebrityDetails _ => true
  | .tmdbFindByExternalId _ => true
  | _ => false

/-- Identity-store write events. -/
def Event.isUpsert : Event → Bool
  | .upsertPerson _ => true
  | _ => false

/-- Translation-capability network calls. -/
def Event.isTranslateApi : Event → Bool
  | .translateApiCall _ => true
  | _ => false

/-- Reads or writes of the persistent translation cache. -/
def Event.isTranslationCacheAccess : Event → Bool
  | .translationCacheRead _ => true
  | .translationCacheWrite _ _ => true
  | _ => false

/-- Events that the match stages 2-4 can emit. -/
def Event.isMatchStageEvent : Event → Bool
  | .lookupDoubanId _ => true
  | .lookupImdbId _ => true
  | .metaCacheRead _ => true
  | .doubanCelebrityDetails _ => true
  | .tmdbFindByExternalId _ => true
  | .upsertPerson _ => true
  | _ => false

/-- Events that the translation phase can emit. -/
def Event.isTranslationPhaseEvent : Event → Bool
  | .translationCacheRead _ => true
  | .translateApiCall _ => true
  | .translationCacheWrite _ _ => true
  | _ => false

/-- The two ways `_process_cast_list_from_api` can raise out of the match
stages: the cooperative-cancellation `InterruptedError` (lines 1019-1020,
1057-1058, 1067-1069, 1129-1131) and an uncaught storage error. -/
inductive PipeError where
  | interrupted
  | dbError
deriving DecidableEq, Repr

/-- Decidable equality for `Except`, so that concrete pipeline outcomes can
be checked by evaluation. -/
instance instDecidableEqExcept {ε α : Type} [DecidableEq ε] [DecidableEq α] :
    DecidableEq (Except ε α)
  | .error a, .error b =>
    match decEq a b with
    | isTrue h => isTrue (h ▸ rfl)
    | isFalse h => isFalse (fun hh => h (Except.error.inj hh))
  | .error _, .ok _ => isFalse (fun hh => Except.noConfusion hh)
  | .ok _, .error _ => isFalse (fun hh => Except.noConfusion hh)
  | .ok a, .ok b =>
    match decEq a b with
    | isTrue h => isTrue (h ▸ rfl)
    | isFalse h => isFalse (fun hh => h (Except.ok.inj hh))

/-- Persistent state visible to one run: the `person_identity_map` table and
the translation-cache table. -/
structure Db where
  identity : List IdentityRow
  translation : List (String × String)
deriving DecidableEq, Repr

/-- Behaviour of the external collaborators and of storage-error injection
for one run.  The douban/imdb lookup failure flags model an
`sqlite3.Error` raised by the corresponding query (caught inside the two
`_find_person_in_map_by_*` helpers); `metaCacheFails` models an
`sqlite3.Error` raised inside `_get_actor_metadata_from_cache`, which has no
handler.  `celebrityImdbId` is the IMDb id extracted from
`douban_api.celebrity_details` plus the guarded parse at lines 1073-1083
(`none` covers an API error payload, a missing id and a parse failure, all
of which the code handles in place). -/
structure Oracles where
  doubanLookupFails : String → Bool
  imdbLookupFails : String → Bool
  metaCacheFails : String → Bool
  metaCache : String → Option ActorMetadata
  celebrityImdbId : String → Option String
  tmdbPersonByImdb : String → Option String

/-- Run configuration.  `stop` models `self.is_stop_requested()`; it is a
single flag for the whole run, which captures exactly the situation of a
cancellation signalled before the match stages.  The three function fields
model the text helpers `utils.clean_character_name_static`,
`actor_utils.select_best_role` and `utils.contains_chinese`, which live in
modules not present under `src/`; the claims treat them as unknown
functions. -/
structure Ctx where
  stop : Bool
  hasDoubanApi : Bool
  hasTmdbApiKey : Bool
  hasAiTranslator : Bool
  aiTranslationEnabled : Bool
  translationMode : String
  maxActorsConfig : ConfigVal
  cleanCharacterName : Option String → Option String
  selectBestRole : Option String → Option String → Option String
  containsChinese : String → Bool

/-! ### Adaptation layer (lines 913-949) -/

/-- Lines 913-916: the dict comprehension mapping a TMDb id to the Emby
person id, keeping only people whose `ProviderIds.Tmdb` is truthy (a later
duplicate key overwrites an earlier one, as in Python). -/
def buildEmbyIdMap (people : List EmbyPerson) : List (String × Option String) :=
  people.foldl
    (fun m p =>
      match p.tmdbProviderId with
      | some t => if t = "" then m else assocSet m t p.embyId
      | none => m)
    []

/-- Lines 925-931: extract the TMDb id string, preferring the `id` key and
falling back to a truthy `ProviderIds.Tmdb`. -/
def rawTmdbId (r : RawCastRecord) : Option String :=
  match r.idField with
  | some s => some s
  | none =>
    match r.providerTmdbId with
    | some p => if p = "" then none else some p
    | none => none

/-- Lines 921-949: adapt one raw record into the common working shape, or
drop it (`continue`) when no usable TMDb id resolves (falsy or the string
produced by `str(None)`). -/
def adaptCastEntry (embyMap : List (String × Option String)) (r : RawCastRecord) :
    Option CastActor :=
  match rawTmdbId r with
  | none => none
  | some tid =>
    if tid = "" ∨ tid = "None" then none
    else
      some
        { id := tid
          name := r.name.or r.capName
          originalName := r.originalName
          character := r.character.or r.role
          order := r.order
          imdbId := r.imdbId
          doubanId := r.doubanId
          embyPersonId := (assocGet? embyMap tid).join
          newlyAdded := false }

/-- The baseline working list `local_cast_list` (line 921-949 loop). -/
def adaptLocalCastList (embyMap : List (String × Option String))
    (records : List RawCastRecord) : List CastActor :=
  records.filterMap (adaptCastEntry embyMap)

/-! ### One-to-one match (match pass A, lines 961-996) -/

/-- Lines 966-978: the exact case-insensitive comparison of the candidate
against one local actor — the Douban localised name first, then its
original-language name, each against the local `name` and `original_name`;
an empty candidate name never matches. -/
def doubanMatchesLocal (d : DoubanCandidate) (l : CastActor) : Bool :=
  let zh := pyNorm (d.name.getD "")
  let en := pyNorm (d.originalName.getD "")
  let ln := pyNorm (l.name.getD "")
  let lo := pyNorm (l.originalName.getD "")
  (zh ≠ [] ∧ (zh = ln ∨ zh = lo)) ∨ (en ≠ [] ∧ (en = ln ∨ en = lo))

/-- Lines 982-986: the in-place update of a matched local actor — the name
is overwritten with the Douban `Name`, the character becomes the better of
the existing role and the cleaned Douban role, and a truthy Douban
celebrity id is copied over. -/
def applyDoubanMatch (ctx : Ctx) (d : DoubanCandidate) (l : CastActor) : CastActor :=
  { l with
    name := d.name
    character := ctx.selectBestRole l.character (ctx.cleanCharacterName d.role)
    doubanId :=
      match d.doubanCelebrityId with
      | some s => if s = "" then l.doubanId else some s
      | none => l.doubanId }

/-- Lines 971-990: scan the remaining unmatched local actors for the first
match, and pop it from the pool. -/
def popFirstDoubanMatch (ctx : Ctx) (d : DoubanCandidate) :
    List CastActor → Option (CastActor × List CastActor)
  | [] => none
  | l :: rest =>
    if doubanMatchesLocal d l then some (applyDoubanMatch ctx d l, rest)
    else
      match popFirstDoubanMatch ctx d rest with
      | some (m, rest') => some (m, l :: rest')
      | none => none

/-- Outcome of pass A: `merged_actors`, the surviving
`unmatched_local_actors` pool and `unmatched_douban_actors`. -/
structure OneToOneResult where
  merged : List CastActor
  unmatchedLocal : List CastActor
  unmatchedDouban : List DoubanCandidate
deriving DecidableEq, Repr

/-- Lines 961-993: the one-to-one match loop over the Douban candidates;
a matched local actor leaves the pool, an unmatched candidate queues for
the later stages. -/
def oneToOneMatch (ctx : Ctx) :
    List DoubanCandidate → List CastActor → OneToOneResult
  | [], locals => ⟨[], locals, []⟩
  | d :: ds, locals =>
    match popFirstDoubanMatch ctx d locals with
    | some (m, rest) =>
      let r := oneToOneMatch ctx ds rest
      ⟨m :: r.merged, r.unmatchedLocal, r.unmatchedDouban⟩
    | none =>
      let r := oneToOneMatch ctx ds locals
      ⟨r.merged, r.unmatchedLocal, d :: r.unmatchedDouban⟩

/-! ### The working map `final_cast_map` -/

/-- The working set keyed by TMDb id (a Python dict, insertion ordered). -/
abbrev CastMap := List (String × CastActor)

/-- One step of the `final_cast_map` comprehension of line 1000: keep only
actors with a truthy id different from the string produced by `str(None)`. -/
def castMapAddActor (m : CastMap) (a : CastActor) : CastMap :=
  if a.id = "" ∨ a.id = "None" then m else assocSet m a.id a

/-- Line 1000: build `final_cast_map` from the pass-A output. -/
def buildFinalCastMap (actors : List CastActor) : CastMap :=
  actors.foldl castMapAddActor []

/-- `list(final_cast_map.values())`. -/
def castMapValues (m : CastMap) : List CastActor :=
  m.map Prod.snd

/-! ### Identity-store lookups and the synthesis of new actors -/

/-- Lines 591-605: look a Douban celebrity id up in `person_identity_map`;
an `sqlite3.Error` is caught inside the helper and turned into `None`. -/
def findPersonInMapByDoubanId (orc : Oracles) (db : Db) (doubanId : String) :
    Option IdentityRow :=
  if doubanId = "" then none
  else if orc.doubanLookupFails doubanId then none
  else db.identity.find? (fun r => r.doubanCelebrityId = some doubanId)

/-- Lines 607-622: the analogous lookup by IMDb id. -/
def findPersonInMapByImdbId (orc : Oracles) (db : Db) (imdbId : String) :
    Option IdentityRow :=
  if imdbId = "" then none
  else if orc.imdbLookupFails imdbId then none
  else db.identity.find? (fun r => r.imdbId = some imdbId)

/-- Truthiness test `entry and entry["tmdb_person_id"]` applied to a row,
returning the id when it is truthy. -/
def rowTmdbId (r : IdentityRow) : Option String :=
  truthyOpt r.tmdbPersonId

/-- The `new_actor_entry` dictionaries of lines 1030-1046, 1096-1112 and
1140-1156: synthesise a newly added cast member from a Douban candidate,
the cached metadata (when the `ActorMetadata` row exists) and the resolved
ids; `order` is the sentinel 999 and the entry is flagged newly added. -/
def synthNewActor (d : DoubanCandidate) (tid : String) (meta : Option ActorMetadata)
    (imdbId doubanId : Option String) : CastActor :=
  { id := tid
    name := d.name
    originalName := pyOr (meta.bind ActorMetadata.originalName) d.originalName
    character := d.role
    order := some 999
    imdbId := imdbId
    doubanId := doubanId
    embyPersonId := none
    newlyAdded := true }

/-- Modelled from the spec: `ActorDBManager.upsert_person` lives in
`db_handler.py`, which is not among the sources.  Per §4.1 it is an
insert-or-update keyed by the primary (TMDb) id in which non-empty supplied
fields overwrite and empty or absent fields are preserved. -/
def mergeField (old new : Option String) : Option String :=
  match new with
  | some s => if s = "" then old else some s
  | none => old

/-- Modelled from the spec: the row-merge step of `upsert_person` (§4.1). -/
def mergeRow (r : IdentityRow) (p : UpsertPayload) : IdentityRow :=
  { tmdbPersonId := some p.tmdbId
    imdbId := mergeField r.imdbId p.imdbId
    doubanCelebrityId := mergeField r.doubanCelebrityId p.doubanId
    primaryName := mergeField r.primaryName p.name }

/-- Modelled from the spec: `upsert_person` applied to the identity table
(§4.1 merge-on-write, idempotent, keyed by the TMDb id). -/
def dbUpsertPerson (db : Db) (p : UpsertPayload) : Db :=
  if db.identity.any (fun r => r.tmdbPersonId = some p.tmdbId) then
    { db with
      identity := db.identity.map
        (fun r => if r.tmdbPersonId = some p.tmdbId then mergeRow r p else r) }
  else
    { db with
      identity := db.identity ++ [⟨some p.tmdbId, p.imdbId, p.doubanId, p.name⟩] }

/-! ### Match stage 2 (Douban id → identity map, lines 1016-1051) -/

/-- Lines 1016-1051: for each queued candidate, after the cancellation check
(line 1019-1020), look a truthy Douban id up in the identity map; on a hit
with a truthy TMDb id not yet in the working map, read the metadata cache
and insert a synthesised newly added actor; a candidate without a hit is
queued for stages 3-4.  The metadata-cache read has no exception handler, so
an injected storage error there propagates. -/
def matchStage2 (ctx : Ctx) (orc : Oracles) (db : Db) :
    List DoubanCandidate → CastMap → List DoubanCandidate → List Event →
    List Event × Except PipeError (CastMap × List DoubanCandidate)
  | [], m, acc, evs => (evs, .ok (m, acc))
  | d :: rest, m, acc, evs =>
    if ctx.stop then (evs, .error .interrupted)
    else
      match truthyOpt d.doubanCelebrityId with
      | some did =>
        let evs := evs ++ [Event.lookupDoubanId did]
        match findPersonInMapByDoubanId orc db did with
        | some row =>
          match rowTmdbId row with
          | some tid =>
            if assocHas m tid then matchStage2 ctx orc db rest m acc evs
            else
              let evs := evs ++ [Event.metaCacheRead tid]
              if orc.metaCacheFails tid then (evs, .error .dbError)
              else
                let a := synthNewActor d tid (orc.metaCache tid) row.imdbId (some did)
                matchStage2 ctx orc db rest (assocSet m tid a) acc evs
          | none => matchStage2 ctx orc db rest m (acc ++ [d]) evs
        | none => matchStage2 ctx orc db rest m (acc ++ [d]) evs
      | none => matchStage2 ctx orc db rest m (acc ++ [d]) evs

/-! ### Match stages 3-4 (IMDb bridge, lines 1054-1173) -/

/-- Lines 1088-1091: the identity-map hit by IMDb id, paired with the row's
primary name, provided the row's TMDb id is truthy. -/
def imdbMapHit (orc : Oracles) (db : Db) (iid : String) :
    Option (String × Option String) :=
  match findPersonInMapByImdbId orc db iid with
  | some row => (rowTmdbId row).map (fun tid => (tid, row.primaryName))
  | none => none

/-- Lines 1054-1173: for each remaining candidate — cancellation check, then
the cap check that breaks out extending the discard queue with every
remaining candidate; with a truthy Douban id and both external APIs
configured, a second cancellation check, the network fetch of the IMDb id,
the identity-map lookup by IMDb id (hit: optional synthesis plus an
immediate write-back upsert), and on a miss a third cancellation check
followed by the TMDb reverse search (hit not yet in the map: synthesis plus
upsert).  Candidates resolving nowhere are discarded. -/
def matchStage34 (ctx : Ctx) (orc : Oracles) (limit : Int) :
    List DoubanCandidate → CastMap → List DoubanCandidate → Db → List Event →
    Db × List Event × Except PipeError (CastMap × List DoubanCandidate)
  | [], m, acc, db, evs => (db, evs, .ok (m, acc))
  | d :: rest, m, acc, db, evs =>
    if ctx.stop then (db, evs, .error .interrupted)
    else if limit ≤ (m.length : Int) then (db, evs, .ok (m, acc ++ d :: rest))
    else
      match truthyOpt d.doubanCelebrityId with
      | some did =>
        if ctx.hasDoubanApi ∧ ctx.hasTmdbApiKey then
          if ctx.stop then (db, evs, .error .interrupted)
          else
            let evs := evs ++ [Event.doubanCelebrityDetails did]
            match truthyOpt (orc.celebrityImdbId did) with
            | some iid =>
              let evs := evs ++ [Event.lookupImdbId iid]
              match imdbMapHit orc db iid with
              | some (tid, pname) =>
                if assocHas m tid then
                  let p : UpsertPayload := ⟨tid, pyOr d.name pname, some iid, some did⟩
                  matchStage34 ctx orc limit rest m acc (dbUpsertPerson db p)
                    (evs ++ [Event.upsertPerson p])
                else
                  let evs := evs ++ [Event.metaCacheRead tid]
                  if orc.metaCacheFails tid then (db, evs, .error .dbError)
                  else
                    let a := synthNewActor d tid (orc.metaCache tid) (some iid) (some did)
                    let p : UpsertPayload := ⟨tid, pyOr d.name pname, some iid, some did⟩
                    matchStage34 ctx orc limit rest (assocSet m tid a) acc
                      (dbUpsertPerson db p) (evs ++ [Event.upsertPerson p])
              | none =>
                if ctx.stop then (db, evs, .error .interrupted)
                else
                  let evs := evs ++ [Event.tmdbFindByExternalId iid]
                  match truthyOpt (orc.tmdbPersonByImdb iid) with
                  | some pid =>
                    if assocHas m pid then
                      matchStage34 ctx orc limit rest m acc db evs
                    else
                      let evs := evs ++ [Event.metaCacheRead pid]
                      if orc.metaCacheFails pid then (db, evs, .error .dbError)
                      else
                        let a := synthNewActor d pid (orc.metaCache pid) (some iid) (some did)
                        let p : UpsertPayload := ⟨pid, d.name, some iid, some did⟩
                        matchStage34 ctx orc limit rest (assocSet m pid a) acc
                          (dbUpsertPerson db p) (evs ++ [Event.upsertPerson p])
                  | none => matchStage34 ctx orc limit rest m (acc ++ [d]) db evs
            | none => matchStage34 ctx orc limit rest m (acc ++ [d]) db evs
        else matchStage34 ctx orc limit rest m (acc ++ [d]) db evs
      | none => matchStage34 ctx orc limit rest m (acc ++ [d]) db evs

/-! ### Assembling the match stages -/

/-- The queue of Douban candidates still unmatched when pass A ends. -/
def unmatchedDoubanAfterOneToOne (ctx : Ctx) (records : List RawCastRecord)
    (embyCast : List EmbyPerson) (cands : List DoubanCandidate) :
    List DoubanCandidate :=
  (oneToOneMatch ctx cands
      (adaptLocalCastList (buildEmbyIdMap embyCast) records)).unmatchedDouban

/-- The working map right after pass A (line 996 merge and line 1000 map
construction). -/
def baselineWorkingMap (ctx : Ctx) (records : List RawCastRecord)
    (embyCast : List EmbyPerson) (cands : List DoubanCandidate) : CastMap :=
  let r := oneToOneMatch ctx cands
    (adaptLocalCastList (buildEmbyIdMap embyCast) records)
  buildFinalCastMap (r.merged ++ r.unmatchedLocal)

/-- Lines 913-1176: adaptation, pass A, the cap check of lines 1010-1013
(reaching the cap skips stages 2-4 entirely), then stages 2 and 3-4; the
result is `list(final_cast_map.values())`, the working list just before the
full write-back. -/
def matchStages (ctx : Ctx) (orc : Oracles) (db : Db)
    (records : List RawCastRecord) (embyCast : List EmbyPerson)
    (cands : List DoubanCandidate) :
    Db × List Event × Except PipeError (List CastActor) :=
  let m0 := baselineWorkingMap ctx records embyCast cands
  let limit := parseMaxActors ctx.maxActorsConfig
  if limit ≤ (m0.length : Int) then (db, [], .ok (castMapValues m0))
  else
    match matchStage2 ctx orc db
        (unmatchedDoubanAfterOneToOne ctx records embyCast cands) m0 [] [] with
    | (evs, .error e) => (db, evs, .error e)
    | (evs, .ok (m1, un1)) =>
      match matchStage34 ctx orc limit un1 m1 [] db evs with
      | (db', evs', .error e) => (db', evs', .error e)
      | (db', evs', .ok (m2, _)) => (db', evs', .ok (castMapValues m2))

/-! ### Full write-back and truncation (lines 1178-1208) -/

/-- The upsert payload of the pre-truncation write-back loop
(lines 1181-1189). -/
def wbPayload (a : CastActor) : UpsertPayload :=
  ⟨a.id, a.name, a.imdbId, a.doubanId⟩

/-- Lines 1178-1190: upsert an identity row for every member of the working
list, truncated members included. -/
def fullWriteBack (db : Db) (evs : List Event) :
    List CastActor → Db × List Event
  | [] => (db, evs)
  | a :: rest =>
    fullWriteBack (dbUpsertPerson db (wbPayload a))
      (evs ++ [Event.upsertPerson (wbPayload a)]) rest

/-- Line 1205 sort key: a present non-negative `order`, otherwise 999. -/
def truncSortKey (a : CastActor) : Int :=
  match a.order with
  | some o => if 0 ≤ o then o else 999
  | none => 999

/-- Lines 1201-1208: when the working list exceeds the cap, stable-sort it
by the order key and keep the first `limit` entries (Python's stable
`list.sort` is modelled by the stable insertion sort). -/
def truncateCastList (limit : Int) (cast : List CastActor) : List CastActor :=
  if limit < (cast.length : Int) then
    (List.insertionSort (fun a b => truncSortKey a ≤ truncSortKey b) cast).take limit.toNat
  else cast

/-! ### Translation stage (lines 1215-1317) -/

/-- Membership of the `texts_to_collect` set, preserving first-insertion
order. -/
def addUnique (ts : List String) (t : String) : List String :=
  if t ∈ ts then ts else ts ++ [t]

/-- Lines 1226-1235: collect every truthy actor name and truthy cleaned
character string that is not already in the target script. -/
def collectTranslateTexts (ctx : Ctx) (cast : List CastActor) : List String :=
  cast.foldl
    (fun ts a =>
      let ts :=
        match a.name with
        | some n => if n ≠ "" ∧ ¬ ctx.containsChinese n then addUnique ts n else ts
        | none => ts
      match a.character with
      | some ch =>
        if ch = "" then ts
        else
          match ctx.cleanCharacterName (some ch) with
          | some c => if c ≠ "" ∧ ¬ ctx.containsChinese c then addUnique ts c else ts
          | none => ts
      | none => ts)
    []

/-- `get_translation_from_db` against the translation table. -/
def lookupTranslationDb (db : Db) (t : String) : Option String :=
  assocGet? db.translation t

/-- Lines 1238-1244 (`fast` mode only): probe the persistent cache for every
collected text; hits seed the in-memory `translation_cache`, misses queue
for the API call, and every probe is a cache-read event. -/
def probeTranslationCache (db : Db) :
    List String → List (String × String) × List String × List Event
  | [] => ([], [], [])
  | t :: ts =>
    let r := probeTranslationCache db ts
    match lookupTranslationDb db t with
    | some tr => ((t, tr) :: r.1, r.2.1, Event.translationCacheRead t :: r.2.2)
    | none => (r.1, t :: r.2.1, Event.translationCacheRead t :: r.2.2)

/-- The `texts_to_send_to_api` set: cache misses in `fast` mode, everything
collected otherwise (line 1247). -/
def textsToSendToApi (ctx : Ctx) (db : Db) (cast : List CastActor) : List String :=
  if ctx.translationMode = "fast" then
    (probeTranslationCache db (collectTranslateTexts ctx cast)).2.1
  else collectTranslateTexts ctx cast

/-- Lines 1292-1311: apply the accumulated `translation_cache` to the capped
list — each name is replaced by its cached translation (default: itself);
a truthy character is cleaned and then replaced by the cached translation of
the cleaned text (default: the cleaned text); a falsy character becomes the
empty string. -/
def applyTranslation (ctx : Ctx) (cache : List (String × String))
    (cast : List CastActor) : List CastActor :=
  cast.map
    (fun a =>
      let newName : Option String :=
        match a.name with
        | some n => some (dictGetD cache n n)
        | none => none
      let newChar : Option String :=
        match a.character with
        | some ch =>
          if ch = "" then some ""
          else
            match ctx.cleanCharacterName (some ch) with
            | some c => some (dictGetD cache c c)
            | none => none
        | none => some ""
      { a with name := newName, character := newChar })

/-- Lines 1215-1317: the whole translation phase.  With the translator
present and enabled, collect texts, probe the cache in `fast` mode, call
`batch_translate` on the misses; an exception from the call (the
`bt` oracle returning an error) abandons the phase with all text unchanged
(lines 1272-1275 and 1314-1317); on success the results are merged into the
in-memory cache, written back to the persistent cache in `fast` mode only
(lines 1263-1270), and applied to the capped list. -/
def translationStage (ctx : Ctx) (db : Db)
    (bt : List String → Except Unit (List (String × String)))
    (cast : List CastActor) (evs : List Event) :
    Db × List Event × List CastActor :=
  if ctx.hasAiTranslator ∧ ctx.aiTranslationEnabled then
    let texts := collectTranslateTexts ctx cast
    let fast := ctx.translationMode = "fast"
    let probe := if fast then probeTranslationCache db texts else ([], texts, [])
    let cache0 := probe.1
    let toSend := probe.2.1
    let evs := evs ++ probe.2.2
    if toSend = [] then (db, evs, applyTranslation ctx cache0 cast)
    else
      let evs := evs ++ [Event.translateApiCall toSend]
      match bt toSend with
      | .error _ => (db, evs, cast)
      | .ok res =>
        if res = [] then (db, evs, applyTranslation ctx cache0 cast)
        else
          let cache := dictUpdateAll cache0 res
          let db' :=
            if fast then
              res.foldl (fun d p => { d with translation := assocSet d.translation p.1 p.2 }) db
            else db
          let evs := evs ++
            (if fast then res.map (fun p => Event.translationCacheWrite p.1 p.2) else [])
          (db', evs, applyTranslation ctx cache cast)
  else (db, evs, cast)

/-! ### Final formatting (lines 1319-1340) -/

/-- Modelled from the spec: `actor_utils.format_and_complete_cast_list` is
in `actor_utils.py`, not among the sources.  Per §4.4 step 11 and §4.5 it is
a pure, order-stable, per-member transformation (character cleanup,
animation-specific leniency, cross-reference bundle attachment) that
neither adds nor drops members; the subsequent `provider_ids` loop of
lines 1329-1338 only derives a bundle from the id fields each member
already carries. -/
def formatAndCompleteCastList (ctx : Ctx) (isAnimation : Bool)
    (cast : List CastActor) : List CastActor :=
  cast.map (fun a => { a with character := ctx.cleanCharacterName a.character })

/-! ### The whole pipeline and the session boundary -/

/-- Lines 888-1340, `_process_cast_list_from_api`: the match stages, the
full write-back, the truncation, the translation phase and the final
formatting.  The `cands` argument is the output of
`actor_utils.format_douban_cast` (line 958), whose module is not among the
sources; the claims treat the candidate list itself as the input. -/
def processCastListFromApi (ctx : Ctx) (orc : Oracles) (db : Db)
    (bt : List String → Except Unit (List (String × String)))
    (records : List RawCastRecord) (embyCast : List EmbyPerson)
    (cands : List DoubanCandidate) (isAnimation : Bool) :
    Db × List Event × Except PipeError (List CastActor) :=
  match matchStages ctx orc db records embyCast cands with
  | (db', evs', .error e) => (db', evs', .error e)
  | (db', evs', .ok cast) =>
    let wb := fullWriteBack db' evs' cast
    let limit := parseMaxActors ctx.maxActorsConfig
    let capped := truncateCastList limit cast
    let t := translationStage ctx wb.1 bt capped wb.2
    (t.1, t.2.1, .ok (formatAndCompleteCastList ctx isAnimation t.2.2))

/-- Outcome of `_process_item_core_logic_api_version` as seen from the cast
pipeline's result: a raised `InterruptedError` (or an unexpected error) is
caught at the session boundary (lines 872-882), the function returns
`False` and the open transaction is not committed; a normal pipeline return
reaches the commit of line 870.  The success path's own later failure modes
(for example a rejected server write-back) are outside the claims and not
modelled. -/
structure SessionOutcome where
  succeeded : Bool
  committed : Bool
deriving DecidableEq, Repr

/-- The session-boundary handler restricted to the pipeline outcome. -/
def sessionOutcome (r : Except PipeError (List CastActor)) : SessionOutcome :=
  match r with
  | .error _ => ⟨false, false⟩
  | .ok _ => ⟨true, true⟩

/-! ### Series cast aggregation (lines 239-270) -/

/-- A raw TMDb cast entry as read by the aggregation function: the `id`
key, the `order` key, and an abstract payload standing for all the fields it
carries along unchanged. -/
structure TmdbAggActor where
  id : Option Int
  order : Option Int
  payload : String
deriving DecidableEq, Repr

/-- The credits of one episode: `cast` plus `guest_stars` (line 257). -/
structure TmdbEpisodeData where
  cast : List TmdbAggActor
  guestStars : List TmdbAggActor
deriving DecidableEq, Repr

/-- Truthiness of `actor.get("id")` (an id of 0 is falsy in Python). -/
def truthyId (a : TmdbAggActor) : Option Int :=
  match a.id with
  | some n => if n = 0 then none else some n
  | none => none

/-- One step of the main-cast fold (lines 248-251): a truthy id is assigned
into the dict (a duplicate id is overwritten, keeping its first position). -/
def aggMainStep (m : List (Int × TmdbAggActor)) (a : TmdbAggActor) :
    List (Int × TmdbAggActor) :=
  match truthyId a with
  | some n => assocSet m n a
  | none => m

/-- Lines 246-252: load the main series cast into the aggregation map. -/
def aggMainMap (mainCast : List TmdbAggActor) : List (Int × TmdbAggActor) :=
  mainCast.foldl aggMainStep []

/-- Line 262-263: a sub-part entry lacking an `order` key receives the 999
sentinel before insertion. -/
def epAdjust (a : TmdbAggActor) : TmdbAggActor :=
  { a with order := some (a.order.getD 999) }

/-- One insertion step of the episode fold (lines 259-264): an entry with a
truthy id not already aggregated is appended, adjusted. -/
def aggStep (m : List (Int × TmdbAggActor)) (a : TmdbAggActor) :
    List (Int × TmdbAggActor) :=
  match truthyId a with
  | some n => if assocHas m n then m else m ++ [(n, epAdjust a)]
  | none => m

/-- Lines 254-264: fold the episodes' `cast` and `guest_stars` into the map,
inserting only ids not already present. -/
def aggEpisodes (m : List (Int × TmdbAggActor)) (eps : List TmdbEpisodeData) :
    List (Int × TmdbAggActor) :=
  eps.foldl (fun m e => (e.cast ++ e.guestStars).foldl aggStep m) m

/-- Every episode actor in scan order: per episode, `cast` then
`guest_stars`. -/
def allEpisodeActors (eps : List TmdbEpisodeData) : List TmdbAggActor :=
  (eps.map (fun e => e.cast ++ e.guestStars)).flatten

/-- Lines 239-270, `_aggregate_series_cast_from_tmdb_data`: aggregate the
main cast and every episode's cast, de-duplicated by id with the main
listing taking precedence, then sort by `order` (default 999) with the
stable sort. -/
def aggregateSeriesCastFromTmdbData (mainCast : List TmdbAggActor)
    (eps : List TmdbEpisodeData) : List TmdbAggActor :=
  List.insertionSort (fun a b => a.order.getD 999 ≤ b.order.getD 999)
    ((aggEpisodes (aggMainMap mainCast) eps).map Prod.snd)

/-! ### Concrete sample data (used by witnesses and counterexamples) -/

/-- A reasonable concrete instance of `utils.contains_chinese`: any CJK
unified ideograph. -/
def sampleContainsChinese (s : String) : Bool :=
  s.data.any (fun c => 19968 ≤ c.toNat && c.toNat ≤ 40959)

/-- A reasonable concrete instance of `actor_utils.select_best_role`: the
truthy candidate role wins over a falsy existing one. -/
def sampleSelectBestRole (a b : Option String) : Option String :=
  pyOr b a

/-- A base run configuration for concrete evaluations. -/
def sampleCtx : Ctx :=
  { stop := false
    hasDoubanApi := true
    hasTmdbApiKey := true
    hasAiTranslator := true
    aiTranslationEnabled := true
    translationMode := "fast"
    maxActorsConfig := .absent
    cleanCharacterName := fun c => c
    selectBestRole := sampleSelectBestRole
    containsChinese := sampleContainsChinese }

/-- A base oracle set: no storage errors, empty caches, no network hits. -/
def sampleOrc : Oracles :=
  { doubanLookupFails := fun _ => false
    imdbLookupFails := fun _ => false
    metaCacheFails := fun _ => false
    metaCache := fun _ => none
    celebrityImdbId := fun _ => none
    tmdbPersonByImdb := fun _ => none }

/-- A trivially succeeding translator. -/
def sampleBt : List String → Except Unit (List (String × String)) :=
  fun _ => .ok []

/-- A local record with TMDb id 1, named John. -/
def sampleRecordJohn : RawCastRecord :=
  { idField := some "1", providerTmdbId := none, name := some "John"
    capName := none, character := some "Lead", role := none
    originalName := some "John", order := some 0, imdbId := none
    doubanId := none }

/-- A local record with TMDb id 2, named Jane. -/
def sampleRecordJane : RawCastRecord :=
  { idField := some "2", providerTmdbId := none, name := some "Jane"
    capName := none, character := some "Support", role := none
    originalName := some "Jane", order := some 1, imdbId := none
    doubanId := none }

/-- A Douban candidate whose original-language name matches John. -/
def sampleCandidateYuehan : DoubanCandidate :=
  { name := some "约翰", originalName := some "John", role := some "Lead"
    doubanCelebrityId := some "d1" }

/-- A Douban candidate matching nothing locally. -/
def sampleCandidateNoMatch : DoubanCandidate :=
  { name := some "Nobody", originalName := some "Nobody", role := none
    doubanCelebrityId := some "d9" }

/-- The base configuration with AI translation turned off. -/
def sampleCtxNoAi : Ctx :=
  { sampleCtx with aiTranslationEnabled := false }

/-- The base configuration with the cancellation flag raised. -/
def sampleCtxStopped : Ctx :=
  { sampleCtx with stop := true }

/-- The base configuration with a cap of one actor and no translation. -/
def sampleCtxCapOne : Ctx :=
  { sampleCtx with maxActorsConfig := .intVal 1, aiTranslationEnabled := false }

/-- Oracles whose metadata-cache read raises for TMDb id 9. -/
def sampleOrcMetaFail : Oracles :=
  { sampleOrc with metaCacheFails := fun t => t = "9" }

/-- Oracles whose identity-map lookup by Douban id always raises an
`sqlite3.Error` (caught inside the lookup helper). -/
def sampleOrcLookupFail : Oracles :=
  { sampleOrc with doubanLookupFails := fun _ => true }

/-- An identity table holding a row that maps Douban id d9 to TMDb id 9. -/
def sampleDbD9 : Db :=
  ⟨[⟨some "9", none, some "d9", some "Nobody"⟩], []⟩

/-- A translation table holding entries for both collected texts of the
John record. -/
def sampleDbTrans : Db :=
  ⟨[], [("John", "约翰"), ("Lead", "主演")]⟩

/-- An always-raising translator. -/
def sampleBtErr : List String → Except Unit (List (String × String)) :=
  fun _ => .error ()

/-- The adapted working-set entry of the John record. -/
def sampleJohnAdapted : CastActor :=
  ⟨"1", some "John", some "John", some "Lead", some 0, none, none, none, false⟩

/-- A record with no `id` key and no `ProviderIds.Tmdb`: dropped by the
adaptation layer. -/
def sampleBadRecord : RawCastRecord :=
  { idField := none, providerTmdbId := none, name := some "Ghost"
    capName := none, character := some "?", role := none
    originalName := none, order := none, imdbId := none, doubanId := none }

/-! ## Theorems

General lemmas about the association-list model of Python dictionaries. -/

theorem assocHas_iff_mem [DecidableEq κ] (m : List (κ × α)) (k : κ) :
    assocHas m k = true ↔ k ∈ m.map Prod.fst := by
  induction m with
  | nil => simp [assocHas]
  | cons p rest ih =>
    obtain ⟨k', v'⟩ := p
    by_cases h : k' = k
    · subst h
      simp [assocHas]
    · simp only [assocHas, if_neg h, List.map_cons, List.mem_cons]
      rw [ih]
      constructor
      · exact fun hm => Or.inr hm
      · rintro (rfl | hm)
        · exact absurd rfl h
        · exact hm

theorem assocGet?_eq_none [DecidableEq κ] (m : List (κ × α)) (k : κ)
    (h : assocHas m k = false) : assocGet? m k = none := by
  induction m with
  | nil => rfl
  | cons p rest ih =>
    obtain ⟨k', v'⟩ := p
    by_cases hk : k' = k
    · simp [assocHas, hk] at h
    · simp only [assocGet?, if_neg hk]
      exact ih (by simpa [assocHas, hk] using h)

theorem assocGet?_append [DecidableEq κ] (m m' : List (κ × α)) (k : κ) :
    assocGet? (m ++ m') k = (assocGet? m k).or (assocGet? m' k) := by
  induction m with
  | nil => simp [assocGet?]
  | cons p rest ih =>
    obtain ⟨k', v'⟩ := p
    by_cases hk : k' = k <;> simp [assocGet?, hk, ih]

theorem assocSet_map_fst [DecidableEq κ] (m : List (κ × α)) (k : κ) (v : α) :
    (assocSet m k v).map Prod.fst =
      if assocHas m k then m.map Prod.fst else m.map Prod.fst ++ [k] := by
  induction m with
  | nil => simp [assocSet, assocHas]
  | cons p rest ih =>
    obtain ⟨k', v'⟩ := p
    by_cases hk : k' = k <;> simp [assocSet, assocHas, hk, ih] <;> split <;> simp

theorem assocSet_keys_nodup [DecidableEq κ] (m : List (κ × α)) (k : κ) (v : α)
    (h : (m.map Prod.fst).Nodup) : ((assocSet m k v).map Prod.fst).Nodup := by
  rw [assocSet_map_fst]
  by_cases hk : assocHas m k
  · simpa [hk] using h
  · have : k ∉ m.map Prod.fst := by
      intro hm
      exact absurd ((assocHas_iff_mem m k).mpr hm) (by simpa using hk)
    simp [hk, List.nodup_append, h, this]

theorem assocSet_values_subset [DecidableEq κ] (m : List (κ × α)) (k : κ) (v : α) :
    ∀ x ∈ (assocSet m k v).map Prod.snd, x = v ∨ x ∈ m.map Prod.snd := by
  induction m with
  | nil => simp [assocSet]
  | cons p rest ih =>
    obtain ⟨k', v'⟩ := p
    by_cases hk : k' = k
    · intro x hx
      simp only [assocSet, if_pos hk, List.map_cons, List.mem_cons] at hx
      rcases hx with h | h
      · exact Or.inl h
      · exact Or.inr (by simp [h])
    · intro x hx
      simp only [assocSet, if_neg hk, List.map_cons, List.mem_cons] at hx
      rcases hx with h | h
      · exact Or.inr (by simp [h])
      · rcases ih x h with h' | h'
        · exact Or.inl h'
        · exact Or.inr (by simp [h'])

/-! Lemmas about the series-cast aggregation (claim C9). -/

theorem assocHas_append [DecidableEq κ] (m m' : List (κ × α)) (k : κ) :
    assocHas (m ++ m') k = (assocHas m k || assocHas m' k) := by
  induction m with
  | nil => simp [assocHas]
  | cons p rest ih =>
    obtain ⟨k', v'⟩ := p
    by_cases hk : k' = k <;> simp [assocHas, hk, ih]

theorem aggEpisodes_eq_foldl (m : List (Int × TmdbAggActor))
    (eps : List TmdbEpisodeData) :
    aggEpisodes m eps = (allEpisodeActors eps).foldl aggStep m := by
  induction eps generalizing m with
  | nil => rfl
  | cons e rest ih =>
    show aggEpisodes ((e.cast ++ e.guestStars).foldl aggStep m) rest = _
    rw [ih]
    simp [allEpisodeActors, List.foldl_append]

theorem foldl_aggStep_keys_nodup (l : List TmdbAggActor)
    (m : List (Int × TmdbAggActor)) (h : (m.map Prod.fst).Nodup) :
    ((l.foldl aggStep m).map Prod.fst).Nodup := by
  induction l generalizing m with
  | nil => exact h
  | cons a l ih =>
    refine ih _ ?_
    unfold aggStep
    cases ht : truthyId a with
    | none => exact h
    | some n =>
      by_cases hh : assocHas m n
      · simpa [hh] using h
      · have hnot : n ∉ m.map Prod.fst := fun hm =>
          hh ((assocHas_iff_mem m n).mpr hm)
        simp [hh, List.nodup_append, h, hnot]

theorem assocGet?_foldl_aggStep (l : List TmdbAggActor)
    (m : List (Int × TmdbAggActor)) (n : Int) :
    assocGet? (l.foldl aggStep m) n =
      if assocHas m n then assocGet? m n
      else (l.find? (fun a => truthyId a = some n)).map epAdjust := by
  induction l generalizing m with
  | nil =>
    by_cases h : assocHas m n
    · simp [h]
    · simp [h, assocGet?_eq_none m n (by simpa using h)]
  | cons a l ih =>
    simp only [List.foldl_cons]
    rw [ih]
    cases ht : truthyId a with
    | none =>
      have hfind : List.find? (fun x => truthyId x = some n) (a :: l)
          = List.find? (fun x => truthyId x = some n) l :=
        List.find?_cons_of_neg _ (by simp [ht])
      simp [aggStep, ht, hfind]
    | some k =>
      by_cases hk : k = n
      · subst hk
        have hfind : List.find? (fun x => truthyId x = some k) (a :: l) = some a :=
          List.find?_cons_of_pos _ (by simp [ht])
        by_cases hh : assocHas m k
        · simp [aggStep, ht, hh, hfind]
        · have h1 : assocHas (m ++ [(k, epAdjust a)]) k = true := by
            simp [assocHas_append, assocHas]
          have h2 : assocGet? (m ++ [(k, epAdjust a)]) k = some (epAdjust a) := by
            rw [assocGet?_append, assocGet?_eq_none m k (by simpa using hh)]
            simp [assocGet?]
          simp [aggStep, ht, hh, h1, h2, hfind]
      · have hfind : List.find? (fun x => truthyId x = some n) (a :: l)
            = List.find? (fun x => truthyId x = some n) l :=
          List.find?_cons_of_neg _ (by simp [ht, hk])
        by_cases hh : assocHas m k
        · simp [aggStep, ht, hh, hfind]
        · have h1 : assocHas (m ++ [(k, epAdjust a)]) n = assocHas m n := by
            simp [assocHas_append, assocHas, hk]
          have h2 : assocGet? (m ++ [(k, epAdjust a)]) n = assocGet? m n := by
            rw [assocGet?_append]
            simp [assocGet?, hk]
          simp [aggStep, ht, hh, h1, h2, hfind]

theorem aggMainMap_keys_nodup (mainCast : List TmdbAggActor) :
    ((aggMainMap mainCast).map Prod.fst).Nodup := by
  suffices h : ∀ (l : List TmdbAggActor) (m : List (Int × TmdbAggActor)),
      (m.map Prod.fst).Nodup → ((l.foldl aggMainStep m).map Prod.fst).Nodup by
    exact h mainCast [] (by simp)
  intro l
  induction l with
  | nil => exact fun m h => h
  | cons a l ih =>
    intro m h
    refine ih _ ?_
    unfold aggMainStep
    cases truthyId a with
    | none => exact h
    | some n => exact assocSet_keys_nodup m n a h

/-- Claim C9 is false as stated: an actor first seen only in a sub-part but
carrying its own `order` key (here 2) keeps that order; the 999 sentinel is
not assigned. -/
theorem c9_counterexample :
    (aggregateSeriesCastFromTmdbData []
        [⟨[⟨some 5, some 2, "episode-actor"⟩], []⟩]).map TmdbAggActor.order
      = [some 2] ∧ ¬ ((some 2 : Option Int) = some 999) := by
  constructor
  · decide
  · decide

/-- Claim C9 (amended): the aggregation is de-duplicated by id (the key list
has no duplicates); an id present in the top-level listing keeps exactly its
top-level entry, order included, regardless of the sub-parts; an id first
seen only in a sub-part contributes its first-scanned record, whose `order`
becomes `order.getD 999` — the 999 sentinel applies only when the sub-part
record lacks an order of its own; and the returned list is a permutation of
the aggregated entries. -/
theorem c9_series_aggregation :
    (∀ mainCast eps, ((aggEpisodes (aggMainMap mainCast) eps).map Prod.fst).Nodup)
    ∧ (∀ mainCast eps n, assocHas (aggMainMap mainCast) n = true →
        assocGet? (aggEpisodes (aggMainMap mainCast) eps) n
          = assocGet? (aggMainMap mainCast) n)
    ∧ (∀ mainCast eps n, assocHas (aggMainMap mainCast) n = false →
        assocGet? (aggEpisodes (aggMainMap mainCast) eps) n
          = ((allEpisodeActors eps).find? (fun a => truthyId a = some n)).map epAdjust)
    ∧ (∀ a, (epAdjust a).order = some (a.order.getD 999))
    ∧ (∀ mainCast eps, List.Perm (aggregateSeriesCastFromTmdbData mainCast eps)
        ((aggEpisodes (aggMainMap mainCast) eps).map Prod.snd)) := by
  refine ⟨?_, ?_, ?_, ?_, ?_⟩
  · intro mainCast eps
    rw [aggEpisodes_eq_foldl]
    exact foldl_aggStep_keys_nodup _ _ (aggMainMap_keys_nodup mainCast)
  · intro mainCast eps n h
    rw [aggEpisodes_eq_foldl, assocGet?_foldl_aggStep]
    simp [h]
  · intro mainCast eps n h
    rw [aggEpisodes_eq_foldl, assocGet?_foldl_aggStep]
    simp [h]
  · intro a
    rfl
  · intro mainCast eps
    exact List.perm_insertionSort _ _

/-- Witness for the amended C9 at a concrete input: id 7 appears both in the
top-level listing (order 1) and in an episode (order 4); the aggregated
entry is the top-level one. -/
theorem c9_series_aggregation_witness :
    assocGet?
        (aggEpisodes (aggMainMap [⟨some 7, some 1, "main"⟩])
          [⟨[⟨some 7, some 4, "episode"⟩], []⟩]) 7
      = assocGet? (aggMainMap [⟨some 7, some 1, "main"⟩]) 7 := by
  have h := c9_series_aggregation.2.1 [⟨some 7, some 1, "main"⟩]
    [⟨[⟨some 7, some 4, "episode"⟩], []⟩] 7 (by decide)
  exact h

/-! Lemmas about match pass A (claim C4). -/

theorem popFirstDoubanMatch_some (ctx : Ctx) (d : DoubanCandidate) :
    ∀ (locals : List CastActor) (m : CastActor) (rest : List CastActor),
      popFirstDoubanMatch ctx d locals = some (m, rest) →
      ∃ pre l post, locals = pre ++ l :: post ∧ rest = pre ++ post ∧
        (∀ l' ∈ pre, doubanMatchesLocal d l' = false) ∧
        doubanMatchesLocal d l = true ∧ m = applyDoubanMatch ctx d l := by
  intro locals
  induction locals with
  | nil =>
    intro m rest h
    simp [popFirstDoubanMatch] at h
  | cons l ls ih =>
    intro m rest h
    by_cases hm : doubanMatchesLocal d l
    · rw [popFirstDoubanMatch, if_pos hm] at h
      simp only [Option.some.injEq, Prod.mk.injEq] at h
      obtain ⟨h1, h2⟩ := h
      subst h1
      subst h2
      exact ⟨[], l, ls, rfl, rfl, by simp, hm, rfl⟩
    · rw [popFirstDoubanMatch, if_neg hm] at h
      cases hrec : popFirstDoubanMatch ctx d ls with
      | none =>
        rw [hrec] at h
        simp at h
      | some p =>
        obtain ⟨m', rest'⟩ := p
        rw [hrec] at h
        simp only [Option.some.injEq, Prod.mk.injEq] at h
        obtain ⟨h1, h2⟩ := h
        subst h1
        subst h2
        obtain ⟨pre, l0, post, hsplit, hrest, hpre, hl0, hm0⟩ :=
          ih m' rest' hrec
        refine ⟨l :: pre, l0, post, ?_, ?_, ?_, hl0, hm0⟩
        · simp [hsplit]
        · simp [hrest]
        · intro x hx
          rcases List.mem_cons.mp hx with rfl | hx'
          · simpa using hm
          · exact hpre x hx'

theorem popFirstDoubanMatch_none (ctx : Ctx) (d : DoubanCandidate) :
    ∀ (locals : List CastActor), popFirstDoubanMatch ctx d locals = none →
      ∀ l ∈ locals, doubanMatchesLocal d l = false := by
  intro locals
  induction locals with
  | nil =>
    intro _ l hl
    simp at hl
  | cons l ls ih =>
    intro h x hx
    by_cases hm : doubanMatchesLocal d l
    · rw [popFirstDoubanMatch, if_pos hm] at h
      simp at h
    · rcases List.mem_cons.mp hx with rfl | hx'
      · simpa using hm
      · refine ih ?_ x hx'
        rw [popFirstDoubanMatch, if_neg hm] at h
        cases hrec : popFirstDoubanMatch ctx d ls with
        | none => rfl
        | some p =>
          obtain ⟨m', r'⟩ := p
          rw [hrec] at h
          simp at h

theorem oneToOneMatch_lengths (ctx : Ctx) :
    ∀ (cands : List DoubanCandidate) (locals : List CastActor),
      (oneToOneMatch ctx cands locals).merged.length
          + (oneToOneMatch ctx cands locals).unmatchedLocal.length = locals.length
      ∧ (oneToOneMatch ctx cands locals).merged.length
          + (oneToOneMatch ctx cands locals).unmatchedDouban.length = cands.length := by
  intro cands
  induction cands with
  | nil =>
    intro locals
    simp [oneToOneMatch]
  | cons d ds ih =>
    intro locals
    cases hp : popFirstDoubanMatch ctx d locals with
    | none =>
      have h := ih locals
      simp only [oneToOneMatch, hp, List.length_cons]
      exact ⟨h.1, by omega⟩
    | some p =>
      obtain ⟨m, rest⟩ := p
      obtain ⟨pre, l0, post, hsplit, hrest, -, -, -⟩ :=
        popFirstDoubanMatch_some ctx d locals m rest hp
      have hlen : rest.length + 1 = locals.length := by
        subst hsplit
        subst hrest
        simp [List.length_append]
        omega
      have h := ih rest
      simp only [oneToOneMatch, hp, List.length_cons]
      exact ⟨by omega, by omega⟩

/-- Claim C4: in pass A each Douban candidate scans only the still-unmatched
pool, the first local actor it matches (exact case-insensitive comparison,
localised name first, then original-language name, against the local
display and original names) is removed from the pool — so each local member
is matched by at most one candidate, witnessed by the two length
conservation laws — and the matched member keeps its id, has its name
overwritten by the regional name, its character replaced by the better of
the two role strings, and a truthy Douban celebrity id attached. -/
theorem c4_pass_a_matching :
    (∀ (ctx : Ctx) (d : DoubanCandidate) (locals : List CastActor) m rest,
        popFirstDoubanMatch ctx d locals = some (m, rest) →
        ∃ pre l post, locals = pre ++ l :: post ∧ rest = pre ++ post ∧
          (∀ l' ∈ pre, doubanMatchesLocal d l' = false) ∧
          doubanMatchesLocal d l = true ∧
          m.id = l.id ∧ m.name = d.name ∧
          m.character = ctx.selectBestRole l.character (ctx.cleanCharacterName d.role) ∧
          (∀ s, d.doubanCelebrityId = some s → ¬s = "" → m.doubanId = some s))
    ∧ (∀ (ctx : Ctx) (d : DoubanCandidate) (locals : List CastActor),
        popFirstDoubanMatch ctx d locals = none →
        ∀ l ∈ locals, doubanMatchesLocal d l = false)
    ∧ (∀ (ctx : Ctx) (cands : List DoubanCandidate) (locals : List CastActor),
        (oneToOneMatch ctx cands locals).merged.length
            + (oneToOneMatch ctx cands locals).unmatchedLocal.length = locals.length)
    ∧ (∀ (ctx : Ctx) (cands : List DoubanCandidate) (locals : List CastActor),
        (oneToOneMatch ctx cands locals).merged.length
            + (oneToOneMatch ctx cands locals).unmatchedDouban.length = cands.length) := by
  refine ⟨?_, popFirstDoubanMatch_none,
    fun ctx cands locals => (oneToOneMatch_lengths ctx cands locals).1,
    fun ctx cands locals => (oneToOneMatch_lengths ctx cands locals).2⟩
  intro ctx d locals m rest h
  obtain ⟨pre, l, post, hsplit, hrest, hpre, hl, hm⟩ :=
    popFirstDoubanMatch_some ctx d locals m rest h
  subst hm
  refine ⟨pre, l, post, hsplit, hrest, hpre, hl, rfl, rfl, rfl, ?_⟩
  intro s hs hne
  simp [applyDoubanMatch, hs, hne]

/-- Witness for C4 at the spec scenario: the candidate named 约翰 with
original name John matches the first local actor (John), which leaves the
pool with its name overwritten and the Douban id attached. -/
theorem c4_pass_a_matching_witness :
    ∃ pre l post,
      adaptLocalCastList (buildEmbyIdMap []) [sampleRecordJohn, sampleRecordJane]
          = pre ++ l :: post ∧
        [⟨"2", some "Jane", some "Jane", some "Support", some 1, none, none,
            none, false⟩] = pre ++ post ∧
        (∀ l' ∈ pre, doubanMatchesLocal sampleCandidateYuehan l' = false) ∧
        doubanMatchesLocal sampleCandidateYuehan l = true ∧
        (⟨"1", some "约翰", some "John", some "Lead", some 0, none, some "d1",
            none, false⟩ : CastActor).id = l.id ∧
        (⟨"1", some "约翰", some "John", some "Lead", some 0, none, some "d1",
            none, false⟩ : CastActor).name = sampleCandidateYuehan.name ∧
        (⟨"1", some "约翰", some "John", some "Lead", some 0, none, some "d1",
            none, false⟩ : CastActor).character
          = sampleCtx.selectBestRole l.character
              (sampleCtx.cleanCharacterName sampleCandidateYuehan.role) ∧
        (∀ s, sampleCandidateYuehan.doubanCelebrityId = some s → ¬s = "" →
          (⟨"1", some "约翰", some "John", some "Lead", some 0, none, some "d1",
              none, false⟩ : CastActor).doubanId = some s) :=
  c4_pass_a_matching.1 sampleCtx sampleCandidateYuehan
    (adaptLocalCastList (buildEmbyIdMap []) [sampleRecordJohn, sampleRecordJane])
    ⟨"1", some "约翰", some "John", some "Lead", some 0, none, some "d1",
      none, false⟩
    [⟨"2", some "Jane", some "Jane", some "Support", some 1, none, none,
      none, false⟩]
    (by decide)

/-! Combined structural properties of match stage 2: the event trace only
grows by match-stage events, the stage succeeds whenever cancellation is off
and no metadata-cache read fails, and every working-map value it produces is
either inherited or flagged newly added. -/

theorem matchStage2_props (ctx : Ctx) (orc : Oracles) (db : Db) :
    ∀ (cs : List DoubanCandidate) (m : CastMap) (acc : List DoubanCandidate)
      (evs : List Event),
      (∃ delta, (matchStage2 ctx orc db cs m acc evs).1 = evs ++ delta ∧
          ∀ e ∈ delta, e.isMatchStageEvent = true)
      ∧ (ctx.stop = false → (∀ s, orc.metaCacheFails s = false) →
          ∃ p, (matchStage2 ctx orc db cs m acc evs).2 = .ok p)
      ∧ (∀ m2 un, (matchStage2 ctx orc db cs m acc evs).2 = .ok (m2, un) →
          ∀ a ∈ castMapValues m2, a ∈ castMapValues m ∨ a.newlyAdded = true) := by
  intro cs
  induction cs with
  | nil =>
    intro m acc evs
    refine ⟨⟨[], by simp [matchStage2], by simp⟩, ?_, ?_⟩
    · intro _ _
      exact ⟨(m, acc), rfl⟩
    · intro m2 un h a ha
      simp only [matchStage2, Except.ok.injEq, Prod.mk.injEq] at h
      obtain ⟨rfl, rfl⟩ := h
      exact Or.inl ha
  | cons d rest ih =>
    intro m acc evs
    by_cases hstop : ctx.stop
    · have hstep : matchStage2 ctx orc db (d :: rest) m acc evs
          = (evs, .error .interrupted) := by
        simp [matchStage2, hstop]
      rw [hstep]
      refine ⟨⟨[], by simp, by simp⟩, ?_, ?_⟩
      · intro h _
        rw [hstop] at h
        exact absurd h (by simp)
      · intro m2 un h
        simp at h
    · have hstop' : ctx.stop = false := by simpa using hstop
      cases hd : truthyOpt d.doubanCelebrityId with
      | none =>
        have hstep : matchStage2 ctx orc db (d :: rest) m acc evs
            = matchStage2 ctx orc db rest m (acc ++ [d]) evs := by
          simp [matchStage2, hstop', hd]
        rw [hstep]
        exact ih m (acc ++ [d]) evs
      | some did =>
        cases hf : findPersonInMapByDoubanId orc db did with
        | none =>
          have hstep : matchStage2 ctx orc db (d :: rest) m acc evs
              = matchStage2 ctx orc db rest m (acc ++ [d])
                  (evs ++ [Event.lookupDoubanId did]) := by
            simp [matchStage2, hstop', hd, hf]
          rw [hstep]
          obtain ⟨⟨delta, hdelta, hall⟩, htot, hvals⟩ :=
            ih m (acc ++ [d]) (evs ++ [Event.lookupDoubanId did])
          refine ⟨⟨Event.lookupDoubanId did :: delta, by simpa using hdelta, ?_⟩,
            htot, hvals⟩
          intro e he
          rcases List.mem_cons.mp he with rfl | he'
          · rfl
          · exact hall e he'
        | some row =>
          cases hr : rowTmdbId row with
          | none =>
            have hstep : matchStage2 ctx orc db (d :: rest) m acc evs
                = matchStage2 ctx orc db rest m (acc ++ [d])
                    (evs ++ [Event.lookupDoubanId did]) := by
              simp [matchStage2, hstop', hd, hf, hr]
            rw [hstep]
            obtain ⟨⟨delta, hdelta, hall⟩, htot, hvals⟩ :=
              ih m (acc ++ [d]) (evs ++ [Event.lookupDoubanId did])
            refine ⟨⟨Event.lookupDoubanId did :: delta, by simpa using hdelta, ?_⟩,
              htot, hvals⟩
            intro e he
            rcases List.mem_cons.mp he with rfl | he'
            · rfl
            · exact hall e he'
          | some tid =>
            by_cases hhas : assocHas m tid
            · have hstep : matchStage2 ctx orc db (d :: rest) m acc evs
                  = matchStage2 ctx orc db rest m acc
                      (evs ++ [Event.lookupDoubanId did]) := by
                simp [matchStage2, hstop', hd, hf, hr, hhas]
              rw [hstep]
              obtain ⟨⟨delta, hdelta, hall⟩, htot, hvals⟩ :=
                ih m acc (evs ++ [Event.lookupDoubanId did])
              refine ⟨⟨Event.lookupDoubanId did :: delta, by simpa using hdelta, ?_⟩,
                htot, hvals⟩
              intro e he
              rcases List.mem_cons.mp he with rfl | he'
              · rfl
              · exact hall e he'
            · by_cases hmeta : orc.metaCacheFails tid
              · have hstep : matchStage2 ctx orc db (d :: rest) m acc evs
                    = (evs ++ [Event.lookupDoubanId did, Event.metaCacheRead tid],
                        .error .dbError) := by
                  simp [matchStage2, hstop', hd, hf, hr, hhas, hmeta]
                rw [hstep]
                refine ⟨⟨[Event.lookupDoubanId did, Event.metaCacheRead tid],
                  by simp, ?_⟩, ?_, ?_⟩
                · intro e he
                  rcases List.mem_cons.mp he with rfl | he'
                  · rfl
                  · rcases List.mem_cons.mp he' with rfl | he''
                    · rfl
                    · simp at he''
                · intro _ hm
                  rw [hm tid] at hmeta
                  exact absurd hmeta (by simp)
                · intro m2 un h
                  simp at h
              · have hstep : matchStage2 ctx orc db (d :: rest) m acc evs
                    = matchStage2 ctx orc db rest
                        (assocSet m tid
                          (synthNewActor d tid (orc.metaCache tid) row.imdbId (some did)))
                        acc
                        (evs ++ [Event.lookupDoubanId did] ++ [Event.metaCacheRead tid]) := by
                  simp [matchStage2, hstop', hd, hf, hr, hhas, hmeta]
                rw [hstep]
                obtain ⟨⟨delta, hdelta, hall⟩, htot, hvals⟩ :=
                  ih (assocSet m tid
                      (synthNewActor d tid (orc.metaCache tid) row.imdbId (some did)))
                    acc
                    (evs ++ [Event.lookupDoubanId did] ++ [Event.metaCacheRead tid])
                refine ⟨⟨Event.lookupDoubanId did :: Event.metaCacheRead tid :: delta,
                  by simpa using hdelta, ?_⟩, htot, ?_⟩
                · intro e he
                  rcases List.mem_cons.mp he with rfl | he'
                  · rfl
                  · rcases List.mem_cons.mp he' with rfl | he''
                    · rfl
                    · exact hall e he''
                · intro m2 un h x hx
                  rcases hvals m2 un h x hx with hmem | hnew
                  · rcases assocSet_values_subset m tid _ x hmem with rfl | h'
                    · exact Or.inr rfl
                    · exact Or.inl h'
                  · exact Or.inr hnew

/-! Combined structural properties of match stages 3-4. -/

theorem dbUpsertPerson_translation (db : Db) (p : UpsertPayload) :
    (dbUpsertPerson db p).translation = db.translation := by
  unfold dbUpsertPerson
  split <;> rfl

theorem forall_mem_append_event (p : Event → Bool) (l1 l2 : List Event)
    (h1 : ∀ e ∈ l1, p e = true) (h2 : ∀ e ∈ l2, p e = true) :
    ∀ e ∈ l1 ++ l2, p e = true := by
  intro e he
  rcases List.mem_append.mp he with h | h
  · exact h1 e h
  · exact h2 e h

theorem matchStage34_props (ctx : Ctx) (orc : Oracles) (limit : Int) :
    ∀ (cs : List DoubanCandidate) (m : CastMap) (acc : List DoubanCandidate)
      (db : Db) (evs : List Event),
      (∃ delta, (matchStage34 ctx orc limit cs m acc db evs).2.1 = evs ++ delta ∧
          ∀ e ∈ delta, e.isMatchStageEvent = true)
      ∧ (ctx.stop = false → (∀ s, orc.metaCacheFails s = false) →
          ∃ p, (matchStage34 ctx orc limit cs m acc db evs).2.2 = .ok p)
      ∧ (∀ m2 un, (matchStage34 ctx orc limit cs m acc db evs).2.2 = .ok (m2, un) →
          ∀ a ∈ castMapValues m2, a ∈ castMapValues m ∨ a.newlyAdded = true)
      ∧ ((matchStage34 ctx orc limit cs m acc db evs).1.translation
          = db.translation) := by
  intro cs
  induction cs with
  | nil =>
    intro m acc db evs
    refine ⟨⟨[], by simp [matchStage34], by simp⟩, ?_, ?_, by simp [matchStage34]⟩
    · intro _ _
      exact ⟨(m, acc), rfl⟩
    · intro m2 un h a ha
      simp only [matchStage34, Except.ok.injEq, Prod.mk.injEq] at h
      obtain ⟨rfl, rfl⟩ := h
      exact Or.inl ha
  | cons d rest ih =>
    intro m acc db evs
    by_cases hstop : ctx.stop
    · have hstep : matchStage34 ctx orc limit (d :: rest) m acc db evs
          = (db, evs, .error .interrupted) := by
        simp [matchStage34, hstop]
      rw [hstep]
      refine ⟨⟨[], by simp, by simp⟩, ?_, ?_, rfl⟩
      · intro h _
        rw [hstop] at h
        exact absurd h (by simp)
      · intro m2 un h
        simp at h
    · have hstop' : ctx.stop = false := by simpa using hstop
      by_cases hcap : limit ≤ (m.length : Int)
      · have hstep : matchStage34 ctx orc limit (d :: rest) m acc db evs
            = (db, evs, .ok (m, acc ++ d :: rest)) := by
          simp [matchStage34, hstop', hcap]
        rw [hstep]
        refine ⟨⟨[], by simp, by simp⟩, ?_, ?_, rfl⟩
        · intro _ _
          exact ⟨(m, acc ++ d :: rest), rfl⟩
        · intro m2 un h a ha
          simp only [Except.ok.injEq, Prod.mk.injEq] at h
          obtain ⟨rfl, rfl⟩ := h
          exact Or.inl ha
      · cases hd : truthyOpt d.doubanCelebrityId with
        | none =>
          have hstep : matchStage34 ctx orc limit (d :: rest) m acc db evs
              = matchStage34 ctx orc limit rest m (acc ++ [d]) db evs := by
            simp [matchStage34, hstop', hcap, hd]
          rw [hstep]
          exact ih m (acc ++ [d]) db evs
        | some did =>
          by_cases hapi : ctx.hasDoubanApi ∧ ctx.hasTmdbApiKey
          · cases hcel : truthyOpt (orc.celebrityImdbId did) with
            | none =>
              have hstep : matchStage34 ctx orc limit (d :: rest) m acc db evs
                  = matchStage34 ctx orc limit rest m (acc ++ [d]) db
                      (evs ++ [Event.doubanCelebrityDetails did]) := by
                simp [matchStage34, hstop', hcap, hd, hapi, hcel]
              rw [hstep]
              obtain ⟨⟨delta, hdelta, hall⟩, htot, hvals, htr⟩ :=
                ih m (acc ++ [d]) db (evs ++ [Event.doubanCelebrityDetails did])
              refine ⟨⟨[Event.doubanCelebrityDetails did] ++ delta,
                by simpa using hdelta,
                forall_mem_append_event _ _ _ (by simp [Event.isMatchStageEvent]) hall⟩,
                htot, hvals, htr⟩
            | some iid =>
              cases hhit : imdbMapHit orc db iid with
              | some pr =>
                obtain ⟨tid, pname⟩ := pr
                by_cases hhas : assocHas m tid
                · have hstep : matchStage34 ctx orc limit (d :: rest) m acc db evs
                      = matchStage34 ctx orc limit rest m acc
                          (dbUpsertPerson db ⟨tid, pyOr d.name pname, some iid, some did⟩)
                          (evs ++ [Event.doubanCelebrityDetails did]
                            ++ [Event.lookupImdbId iid]
                            ++ [Event.upsertPerson ⟨tid, pyOr d.name pname, some iid, some did⟩]) := by
                    simp [matchStage34, hstop', hcap, hd, hapi, hcel, hhit, hhas]
                  rw [hstep]
                  obtain ⟨⟨delta, hdelta, hall⟩, htot, hvals, htr⟩ :=
                    ih m acc
                      (dbUpsertPerson db ⟨tid, pyOr d.name pname, some iid, some did⟩)
                      (evs ++ [Event.doubanCelebrityDetails did]
                        ++ [Event.lookupImdbId iid]
                        ++ [Event.upsertPerson ⟨tid, pyOr d.name pname, some iid, some did⟩])
                  refine ⟨⟨[Event.doubanCelebrityDetails did, Event.lookupImdbId iid,
                    Event.upsertPerson ⟨tid, pyOr d.name pname, some iid, some did⟩] ++ delta,
                    by simpa using hdelta,
                    forall_mem_append_event _ _ _ (by simp [Event.isMatchStageEvent]) hall⟩,
                    htot, hvals, by rw [htr, dbUpsertPerson_translation]⟩
                · by_cases hmeta : orc.metaCacheFails tid
                  · have hstep : matchStage34 ctx orc limit (d :: rest) m acc db evs
                        = (db, evs ++ [Event.doubanCelebrityDetails did]
                            ++ [Event.lookupImdbId iid] ++ [Event.metaCacheRead tid],
                            .error .dbError) := by
                      simp [matchStage34, hstop', hcap, hd, hapi, hcel, hhit, hhas, hmeta]
                    rw [hstep]
                    refine ⟨⟨[Event.doubanCelebrityDetails did, Event.lookupImdbId iid,
                      Event.metaCacheRead tid], by simp, by simp [Event.isMatchStageEvent]⟩,
                      ?_, ?_, rfl⟩
                    · intro _ hm
                      rw [hm tid] at hmeta
                      exact absurd hmeta (by simp)
                    · intro m2 un h
                      simp at h
                  · have hstep : matchStage34 ctx orc limit (d :: rest) m acc db evs
                        = matchStage34 ctx orc limit rest
                            (assocSet m tid
                              (synthNewActor d tid (orc.metaCache tid) (some iid) (some did)))
                            acc
                            (dbUpsertPerson db ⟨tid, pyOr d.name pname, some iid, some did⟩)
                            (evs ++ [Event.doubanCelebrityDetails did]
                              ++ [Event.lookupImdbId iid] ++ [Event.metaCacheRead tid]
                              ++ [Event.upsertPerson ⟨tid, pyOr d.name pname, some iid, some did⟩]) := by
                      simp [matchStage34, hstop', hcap, hd, hapi, hcel, hhit, hhas, hmeta]
                    rw [hstep]
                    obtain ⟨⟨delta, hdelta, hall⟩, htot, hvals, htr⟩ :=
                      ih (assocSet m tid
                          (synthNewActor d tid (orc.metaCache tid) (some iid) (some did)))
                        acc
                        (dbUpsertPerson db ⟨tid, pyOr d.name pname, some iid, some did⟩)
                        (evs ++ [Event.doubanCelebrityDetails did]
                          ++ [Event.lookupImdbId iid] ++ [Event.metaCacheRead tid]
                          ++ [Event.upsertPerson ⟨tid, pyOr d.name pname, some iid, some did⟩])
                    refine ⟨⟨[Event.doubanCelebrityDetails did, Event.lookupImdbId iid,
                      Event.metaCacheRead tid,
                      Event.upsertPerson ⟨tid, pyOr d.name pname, some iid, some did⟩] ++ delta,
                      by simpa using hdelta,
                      forall_mem_append_event _ _ _ (by simp [Event.isMatchStageEvent]) hall⟩,
                      htot, ?_, by rw [htr, dbUpsertPerson_translation]⟩
                    intro m2 un h x hx
                    rcases hvals m2 un h x hx with hmem | hnew
                    · rcases assocSet_values_subset m tid _ x hmem with rfl | h'
                      · exact Or.inr rfl
                      · exact Or.inl h'
                    · exact Or.inr hnew
              | none =>
                cases htm : truthyOpt (orc.tmdbPersonByImdb iid) with
                | none =>
                  have hstep : matchStage34 ctx orc limit (d :: rest) m acc db evs
                      = matchStage34 ctx orc limit rest m (acc ++ [d]) db
                          (evs ++ [Event.doubanCelebrityDetails did]
                            ++ [Event.lookupImdbId iid]
                            ++ [Event.tmdbFindByExternalId iid]) := by
                    simp [matchStage34, hstop', hcap, hd, hapi, hcel, hhit, htm]
                  rw [hstep]
                  obtain ⟨⟨delta, hdelta, hall⟩, htot, hvals, htr⟩ :=
                    ih m (acc ++ [d]) db
                      (evs ++ [Event.doubanCelebrityDetails did]
                        ++ [Event.lookupImdbId iid] ++ [Event.tmdbFindByExternalId iid])
                  refine ⟨⟨[Event.doubanCelebrityDetails did, Event.lookupImdbId iid,
                    Event.tmdbFindByExternalId iid] ++ delta,
                    by simpa using hdelta,
                    forall_mem_append_event _ _ _ (by simp [Event.isMatchStageEvent]) hall⟩,
                    htot, hvals, htr⟩
                | some pid =>
                  by_cases hhas : assocHas m pid
                  · have hstep : matchStage34 ctx orc limit (d :: rest) m acc db evs
                        = matchStage34 ctx orc limit rest m acc db
                            (evs ++ [Event.doubanCelebrityDetails did]
                              ++ [Event.lookupImdbId iid]
                              ++ [Event.tmdbFindByExternalId iid]) := by
                      simp [matchStage34, hstop', hcap, hd, hapi, hcel, hhit, htm, hhas]
                    rw [hstep]
                    obtain ⟨⟨delta, hdelta, hall⟩, htot, hvals, htr⟩ :=
                      ih m acc db
                        (evs ++ [Event.doubanCelebrityDetails did]
                          ++ [Event.lookupImdbId iid] ++ [Event.tmdbFindByExternalId iid])
                    refine ⟨⟨[Event.doubanCelebrityDetails did, Event.lookupImdbId iid,
                      Event.tmdbFindByExternalId iid] ++ delta,
                      by simpa using hdelta,
                      forall_mem_append_event _ _ _ (by simp [Event.isMatchStageEvent]) hall⟩,
                      htot, hvals, htr⟩
                  · by_cases hmeta : orc.metaCacheFails pid
                    · have hstep : matchStage34 ctx orc limit (d :: rest) m acc db evs
                          = (db, evs ++ [Event.doubanCelebrityDetails did]
                              ++ [Event.lookupImdbId iid]
                              ++ [Event.tmdbFindByExternalId iid]
                              ++ [Event.metaCacheRead pid],
                              .error .dbError) := by
                        simp [matchStage34, hstop', hcap, hd, hapi, hcel, hhit, htm, hhas, hmeta]
                      rw [hstep]
                      refine ⟨⟨[Event.doubanCelebrityDetails did, Event.lookupImdbId iid,
                        Event.tmdbFindByExternalId iid, Event.metaCacheRead pid],
                        by simp, by simp [Event.isMatchStageEvent]⟩, ?_, ?_, rfl⟩
                      · intro _ hm
                        rw [hm pid] at hmeta
                        exact absurd hmeta (by simp)
                      · intro m2 un h
                        simp at h
                    · have hstep : matchStage34 ctx orc limit (d :: rest) m acc db evs
                          = matchStage34 ctx orc limit rest
                              (assocSet m pid
                                (synthNewActor d pid (orc.metaCache pid) (some iid) (some did)))
                              acc
                              (dbUpsertPerson db ⟨pid, d.name, some iid, some did⟩)
                              (evs ++ [Event.doubanCelebrityDetails did]
                                ++ [Event.lookupImdbId iid]
                                ++ [Event.tmdbFindByExternalId iid]
                                ++ [Event.metaCacheRead pid]
                                ++ [Event.upsertPerson ⟨pid, d.name, some iid, some did⟩]) := by
                        simp [matchStage34, hstop', hcap, hd, hapi, hcel, hhit, htm, hhas, hmeta]
                      rw [hstep]
                      obtain ⟨⟨delta, hdelta, hall⟩, htot, hvals, htr⟩ :=
                        ih (assocSet m pid
                            (synthNewActor d pid (orc.metaCache pid) (some iid) (some did)))
                          acc
                          (dbUpsertPerson db ⟨pid, d.name, some iid, some did⟩)
                          (evs ++ [Event.doubanCelebrityDetails did]
                            ++ [Event.lookupImdbId iid]
                            ++ [Event.tmdbFindByExternalId iid]
                            ++ [Event.metaCacheRead pid]
                            ++ [Event.upsertPerson ⟨pid, d.name, some iid, some did⟩])
                      refine ⟨⟨[Event.doubanCelebrityDetails did, Event.lookupImdbId iid,
                        Event.tmdbFindByExternalId iid, Event.metaCacheRead pid,
                        Event.upsertPerson ⟨pid, d.name, some iid, some did⟩] ++ delta,
                        by simpa using hdelta,
                        forall_mem_append_event _ _ _ (by simp [Event.isMatchStageEvent]) hall⟩,
                        htot, ?_, by rw [htr, dbUpsertPerson_translation]⟩
                      intro m2 un h x hx
                      rcases hvals m2 un h x hx with hmem | hnew
                      · rcases assocSet_values_subset m pid _ x hmem with rfl | h'
                        · exact Or.inr rfl
                        · exact Or.inl h'
                      · exact Or.inr hnew
          · have hstep : matchStage34 ctx orc limit (d :: rest) m acc db evs
                = matchStage34 ctx orc limit rest m (acc ++ [d]) db evs := by
              simp only [matchStage34, hstop', hcap]
              simp [hd, hapi]
            rw [hstep]
            exact ih m (acc ++ [d]) db evs

/-! Write-back, truncation and translation-phase lemmas. -/

theorem fullWriteBack_events (cast : List CastActor) :
    ∀ (db : Db) (evs : List Event),
      (fullWriteBack db evs cast).2
        = evs ++ cast.map (fun a => Event.upsertPerson (wbPayload a)) := by
  induction cast with
  | nil =>
    intro db evs
    simp [fullWriteBack]
  | cons a rest ih =>
    intro db evs
    simp only [fullWriteBack, List.map_cons]
    rw [ih]
    simp

theorem fullWriteBack_translation (cast : List CastActor) :
    ∀ (db : Db) (evs : List Event),
      (fullWriteBack db evs cast).1.translation = db.translation := by
  induction cast with
  | nil =>
    intro db evs
    rfl
  | cons a rest ih =>
    intro db evs
    simp only [fullWriteBack]
    rw [ih, dbUpsertPerson_translation]

theorem parseMaxActors_pos (v : ConfigVal) : 0 < parseMaxActors v := by
  cases v with
  | absent => decide
  | nullVal => decide
  | intVal n =>
    simp only [parseMaxActors]
    split
    · decide
    · omega
  | strVal s =>
    simp only [parseMaxActors]
    cases h : pyParseInt s with
    | none => decide
    | some n =>
      show 0 < if n ≤ 0 then 30 else n
      split
      · decide
      · omega

theorem truncateCastList_length_le (limit : Int) (cast : List CastActor)
    (h : 0 < limit) : ((truncateCastList limit cast).length : Int) ≤ limit := by
  unfold truncateCastList
  split
  · have hs : (List.insertionSort
        (fun a b => truncSortKey a ≤ truncSortKey b) cast).length = cast.length :=
      List.length_insertionSort _ _
    simp only [List.length_take, hs]
    omega
  · omega

theorem truncateCastList_length_eq (limit : Int) (cast : List CastActor)
    (h : 0 < limit) (hge : limit ≤ (cast.length : Int)) :
    ((truncateCastList limit cast).length : Int) = limit := by
  unfold truncateCastList
  split
  · have hs : (List.insertionSort
        (fun a b => truncSortKey a ≤ truncSortKey b) cast).length = cast.length :=
      List.length_insertionSort _ _
    simp only [List.length_take, hs]
    omega
  · omega

theorem truncateCastList_subset (limit : Int) (cast : List CastActor) :
    ∀ a ∈ truncateCastList limit cast, a ∈ cast := by
  intro a ha
  unfold truncateCastList at ha
  split at ha
  · exact (List.perm_insertionSort _ cast).subset (List.take_subset _ _ ha)
  · exact ha

theorem applyTranslation_length (ctx : Ctx) (cache : List (String × String))
    (cast : List CastActor) :
    (applyTranslation ctx cache cast).length = cast.length := by
  simp [applyTranslation]

theorem applyTranslation_mem (ctx : Ctx) (cache : List (String × String))
    (cast : List CastActor) :
    ∀ a' ∈ applyTranslation ctx cache cast,
      ∃ a ∈ cast, a'.id = a.id ∧ a'.newlyAdded = a.newlyAdded := by
  intro a' ha'
  obtain ⟨a, ha, rfl⟩ := List.mem_map.mp ha'
  exact ⟨a, ha, rfl, rfl⟩

theorem probeTranslationCache_events (db : Db) :
    ∀ ts : List String, ∀ e ∈ (probeTranslationCache db ts).2.2,
      ∃ t, e = Event.translationCacheRead t := by
  intro ts
  induction ts with
  | nil =>
    intro e he
    simp [probeTranslationCache] at he
  | cons t ts ih =>
    intro e he
    simp only [probeTranslationCache] at he
    cases h : lookupTranslationDb db t with
    | some tr =>
      rw [h] at he
      rcases List.mem_cons.mp he with rfl | he'
      · exact ⟨t, rfl⟩
      · exact ih e he'
    | none =>
      rw [h] at he
      rcases List.mem_cons.mp he with rfl | he'
      · exact ⟨t, rfl⟩
      · exact ih e he'

theorem probeTranslationCache_allHit (db : Db) :
    ∀ ts : List String, (∀ t ∈ ts, (lookupTranslationDb db t).isSome) →
      (probeTranslationCache db ts).2.1 = [] := by
  intro ts
  induction ts with
  | nil =>
    intro _
    rfl
  | cons t ts ih =>
    intro h
    have ht := h t (by simp)
    simp only [probeTranslationCache]
    cases hl : lookupTranslationDb db t with
    | none =>
      rw [hl] at ht
      simp at ht
    | some tr =>
      exact ih (fun x hx => h x (by simp [hx]))

theorem matchStageEvent_kinds (e : Event) (h : e.isMatchStageEvent = true) :
    e.isTranslationPhaseEvent = false ∧ e.isTranslationCacheAccess = false
      ∧ e.isTranslateApi = false := by
  cases e <;> simp_all [Event.isMatchStageEvent, Event.isTranslationPhaseEvent,
    Event.isTranslationCacheAccess, Event.isTranslateApi]

theorem translationPhaseEvent_kinds (e : Event)
    (h : e.isTranslationPhaseEvent = true) :
    e.isCandidateLookup = false ∧ e.isUpsert = false := by
  cases e <;> simp_all [Event.isTranslationPhaseEvent, Event.isCandidateLookup,
    Event.isUpsert]

theorem filter_eq_nil_event (p : Event → Bool) :
    ∀ l : List Event, (∀ e ∈ l, p e = false) → l.filter p = [] := by
  intro l
  induction l with
  | nil =>
    intro _
    rfl
  | cons e rest ih =>
    intro h
    have he := h e (by simp)
    simp [List.filter_cons, he, ih (fun x hx => h x (by simp [hx]))]

theorem filter_append_nil (p : Event → Bool) (evs delta : List Event)
    (h : ∀ e ∈ delta, p e = false) :
    (evs ++ delta).filter p = evs.filter p := by
  rw [List.filter_append, filter_eq_nil_event p delta h, List.append_nil]

/-! Combined structural properties of the translation phase: the event trace
only grows by translation events; the cast length is preserved; every output
member keeps its id and newly-added flag; outside `fast` mode the persistent
translation cache is neither read nor written; a raising `batch_translate`
leaves cast text and storage unchanged; and in `fast` mode a fully cached
text collection never calls the translator. -/

theorem translationStage_props (ctx : Ctx) (db : Db)
    (bt : List String → Except Unit (List (String × String)))
    (cast : List CastActor) (evs : List Event) :
    (∃ delta, (translationStage ctx db bt cast evs).2.1 = evs ++ delta ∧
        ∀ e ∈ delta, e.isTranslationPhaseEvent = true)
    ∧ ((translationStage ctx db bt cast evs).2.2.length = cast.length)
    ∧ (∀ a' ∈ (translationStage ctx db bt cast evs).2.2,
        ∃ a ∈ cast, a'.id = a.id ∧ a'.newlyAdded = a.newlyAdded)
    ∧ (¬ctx.translationMode = "fast" →
        (translationStage ctx db bt cast evs).2.1.filter Event.isTranslationCacheAccess
          = evs.filter Event.isTranslationCacheAccess)
    ∧ (¬textsToSendToApi ctx db cast = [] →
        bt (textsToSendToApi ctx db cast) = .error () →
        (translationStage ctx db bt cast evs).2.2 = cast
          ∧ (translationStage ctx db bt cast evs).1 = db)
    ∧ (ctx.translationMode = "fast" →
        (∀ t ∈ collectTranslateTexts ctx cast, (lookupTranslationDb db t).isSome) →
        (translationStage ctx db bt cast evs).2.1.filter Event.isTranslateApi
          = evs.filter Event.isTranslateApi) := by
  by_cases hg : ctx.hasAiTranslator ∧ ctx.aiTranslationEnabled
  · by_cases hfast : ctx.translationMode = "fast"
    · have hts : textsToSendToApi ctx db cast
          = (probeTranslationCache db (collectTranslateTexts ctx cast)).2.1 := by
        simp [textsToSendToApi, hfast]
      have hprobeEv : ∀ e ∈ (probeTranslationCache db (collectTranslateTexts ctx cast)).2.2,
          e.isTranslationPhaseEvent = true := by
        intro e he
        obtain ⟨t, rfl⟩ := probeTranslationCache_events db _ e he
        rfl
      have hprobeApi : ∀ e ∈ (probeTranslationCache db (collectTranslateTexts ctx cast)).2.2,
          Event.isTranslateApi e = false := by
        intro e he
        obtain ⟨t, rfl⟩ := probeTranslationCache_events db _ e he
        rfl
      by_cases hsend : (probeTranslationCache db (collectTranslateTexts ctx cast)).2.1 = []
      · have hstep : translationStage ctx db bt cast evs
            = (db, evs ++ (probeTranslationCache db (collectTranslateTexts ctx cast)).2.2,
                applyTranslation ctx
                  (probeTranslationCache db (collectTranslateTexts ctx cast)).1 cast) := by
          simp [translationStage, hg, hfast, hsend]
        rw [hstep]
        refine ⟨⟨_, rfl, hprobeEv⟩, applyTranslation_length _ _ _,
          applyTranslation_mem _ _ _, fun h => absurd hfast h, ?_, ?_⟩
        · intro hne _
          rw [hts] at hne
          exact absurd hsend hne
        · intro _ _
          exact filter_append_nil _ _ _ hprobeApi
      · cases hbt : bt (probeTranslationCache db (collectTranslateTexts ctx cast)).2.1 with
        | error u =>
          have hstep : translationStage ctx db bt cast evs
              = (db, evs ++ (probeTranslationCache db (collectTranslateTexts ctx cast)).2.2
                  ++ [Event.translateApiCall
                      (probeTranslationCache db (collectTranslateTexts ctx cast)).2.1],
                  cast) := by
            simp [translationStage, hg, hfast, hsend, hbt]
          rw [hstep]
          refine ⟨⟨_, by rw [List.append_assoc], ?_⟩, rfl,
            fun a' ha' => ⟨a', ha', rfl, rfl⟩, fun h => absurd hfast h,
            fun _ _ => ⟨rfl, rfl⟩, ?_⟩
          · exact forall_mem_append_event _ _ _ hprobeEv (by simp [Event.isTranslationPhaseEvent])
          · intro _ hall
            exact absurd (probeTranslationCache_allHit db _ hall) hsend
        | ok res =>
          by_cases hres : res = []
          · have hstep : translationStage ctx db bt cast evs
                = (db, evs ++ (probeTranslationCache db (collectTranslateTexts ctx cast)).2.2
                    ++ [Event.translateApiCall
                        (probeTranslationCache db (collectTranslateTexts ctx cast)).2.1],
                    applyTranslation ctx
                      (probeTranslationCache db (collectTranslateTexts ctx cast)).1 cast) := by
              simp [translationStage, hg, hfast, hsend, hbt, hres]
            rw [hstep]
            refine ⟨⟨_, by rw [List.append_assoc], ?_⟩, applyTranslation_length _ _ _,
              applyTranslation_mem _ _ _, fun h => absurd hfast h, ?_, ?_⟩
            · exact forall_mem_append_event _ _ _ hprobeEv (by simp [Event.isTranslationPhaseEvent])
            · intro _ herr
              rw [hts, hbt] at herr
              exact absurd herr (by simp)
            · intro _ hall
              exact absurd (probeTranslationCache_allHit db _ hall) hsend
          · have hstep : translationStage ctx db bt cast evs
                = (res.foldl (fun d p => { d with translation := assocSet d.translation p.1 p.2 }) db,
                    evs ++ (probeTranslationCache db (collectTranslateTexts ctx cast)).2.2
                      ++ [Event.translateApiCall
                          (probeTranslationCache db (collectTranslateTexts ctx cast)).2.1]
                      ++ res.map (fun p => Event.translationCacheWrite p.1 p.2),
                    applyTranslation ctx
                      (dictUpdateAll
                        (probeTranslationCache db (collectTranslateTexts ctx cast)).1 res) cast) := by
              simp [translationStage, hg, hfast, hsend, hbt, hres]
            rw [hstep]
            refine ⟨⟨(probeTranslationCache db (collectTranslateTexts ctx cast)).2.2
              ++ [Event.translateApiCall
                  (probeTranslationCache db (collectTranslateTexts ctx cast)).2.1]
              ++ res.map (fun p => Event.translationCacheWrite p.1 p.2),
              by simp [List.append_assoc], ?_⟩, applyTranslation_length _ _ _,
              applyTranslation_mem _ _ _, fun h => absurd hfast h, ?_, ?_⟩
            · refine forall_mem_append_event _ _ _
                (forall_mem_append_event _ _ _ hprobeEv
                  (by simp [Event.isTranslationPhaseEvent])) ?_
              intro e he
              obtain ⟨p, hp, rfl⟩ := List.mem_map.mp he
              rfl
            · intro _ herr
              rw [hts, hbt] at herr
              exact absurd herr (by simp)
            · intro _ hall
              exact absurd (probeTranslationCache_allHit db _ hall) hsend
    · have hts : textsToSendToApi ctx db cast = collectTranslateTexts ctx cast := by
        simp [textsToSendToApi, hfast]
      by_cases htexts : collectTranslateTexts ctx cast = []
      · have hstep : translationStage ctx db bt cast evs
            = (db, evs, applyTranslation ctx [] cast) := by
          simp [translationStage, hg, hfast, htexts]
        rw [hstep]
        refine ⟨⟨[], by simp, by simp⟩, applyTranslation_length _ _ _,
          applyTranslation_mem _ _ _, fun _ => rfl, ?_, fun h _ => absurd h hfast⟩
        intro hne _
        rw [hts] at hne
        exact absurd htexts hne
      · cases hbt : bt (collectTranslateTexts ctx cast) with
        | error u =>
          have hstep : translationStage ctx db bt cast evs
              = (db, evs ++ [Event.translateApiCall (collectTranslateTexts ctx cast)],
                  cast) := by
            simp [translationStage, hg, hfast, htexts, hbt]
          rw [hstep]
          refine ⟨⟨_, rfl, by simp [Event.isTranslationPhaseEvent]⟩, rfl,
            fun a' ha' => ⟨a', ha', rfl, rfl⟩, ?_, fun _ _ => ⟨rfl, rfl⟩,
            fun h _ => absurd h hfast⟩
          intro _
          exact filter_append_nil _ _ _ (by simp [Event.isTranslationCacheAccess])
        | ok res =>
          by_cases hres : res = []
          · have hstep : translationStage ctx db bt cast evs
                = (db, evs ++ [Event.translateApiCall (collectTranslateTexts ctx cast)],
                    applyTranslation ctx [] cast) := by
              simp [translationStage, hg, hfast, htexts, hbt, hres]
            rw [hstep]
            refine ⟨⟨_, rfl, by simp [Event.isTranslationPhaseEvent]⟩,
              applyTranslation_length _ _ _, applyTranslation_mem _ _ _, ?_, ?_,
              fun h _ => absurd h hfast⟩
            · intro _
              exact filter_append_nil _ _ _ (by simp [Event.isTranslationCacheAccess])
            · intro _ herr
              rw [hts, hbt] at herr
              exact absurd herr (by simp)
          · have hstep : translationStage ctx db bt cast evs
                = (db, evs ++ [Event.translateApiCall (collectTranslateTexts ctx cast)],
                    applyTranslation ctx (dictUpdateAll [] res) cast) := by
              simp [translationStage, hg, hfast, htexts, hbt, hres]
            rw [hstep]
            refine ⟨⟨_, rfl, by simp [Event.isTranslationPhaseEvent]⟩,
              applyTranslation_length _ _ _, applyTranslation_mem _ _ _, ?_, ?_,
              fun h _ => absurd h hfast⟩
            · intro _
              exact filter_append_nil _ _ _ (by simp [Event.isTranslationCacheAccess])
            · intro _ herr
              rw [hts, hbt] at herr
              exact absurd herr (by simp)
  · have hstep : translationStage ctx db bt cast evs = (db, evs, cast) := by
      simp [translationStage, hg]
    rw [hstep]
    exact ⟨⟨[], by simp, by simp⟩, rfl, fun a' ha' => ⟨a', ha', rfl, rfl⟩,
      fun _ => rfl, fun _ _ => ⟨rfl, rfl⟩, fun _ _ => rfl⟩

/-! Provenance lemmas: every final cast member traces back to an adapted
baseline record or to a newly added synthesised entry (claim C10). -/

theorem buildFinalCastMap_values_subset (actors : List CastActor) :
    ∀ a ∈ castMapValues (buildFinalCastMap actors), a ∈ actors := by
  suffices h : ∀ (l : List CastActor) (m : CastMap),
      ∀ a ∈ castMapValues (l.foldl castMapAddActor m),
        a ∈ castMapValues m ∨ a ∈ l by
    intro a ha
    rcases h actors [] a ha with h' | h'
    · simp [castMapValues] at h'
    · exact h'
  intro l
  induction l with
  | nil =>
    intro m a ha
    exact Or.inl ha
  | cons x xs ih =>
    intro m a ha
    rcases ih (castMapAddActor m x) a ha with h' | h'
    · unfold castMapAddActor at h'
      split at h'
      · exact Or.inl h'
      · rcases assocSet_values_subset m x.id x a h' with rfl | h''
        · exact Or.inr (by simp)
        · exact Or.inl h''
    · exact Or.inr (by simp [h'])

theorem oneToOneMatch_member_ids (ctx : Ctx) :
    ∀ (cands : List DoubanCandidate) (locals : List CastActor),
      ∀ a ∈ (oneToOneMatch ctx cands locals).merged
          ++ (oneToOneMatch ctx cands locals).unmatchedLocal,
        ∃ a₀ ∈ locals, a.id = a₀.id ∧ a.newlyAdded = a₀.newlyAdded := by
  intro cands
  induction cands with
  | nil =>
    intro locals a ha
    simp only [oneToOneMatch, List.nil_append] at ha
    exact ⟨a, ha, rfl, rfl⟩
  | cons d ds ih =>
    intro locals a ha
    cases hp : popFirstDoubanMatch ctx d locals with
    | none =>
      simp only [oneToOneMatch, hp] at ha
      exact ih locals a ha
    | some p =>
      obtain ⟨m, rest⟩ := p
      obtain ⟨pre, l0, post, hsplit, hrest, -, -, hm⟩ :=
        popFirstDoubanMatch_some ctx d locals m rest hp
      simp only [oneToOneMatch, hp] at ha
      rcases List.mem_append.mp ha with hmerged | hlocal
      · rcases List.mem_cons.mp hmerged with rfl | hmerged'
        · subst hm
          refine ⟨l0, ?_, rfl, rfl⟩
          rw [hsplit]
          simp
        · obtain ⟨a₀, ha₀, hid, hnew⟩ :=
            ih rest a (List.mem_append.mpr (Or.inl hmerged'))
          refine ⟨a₀, ?_, hid, hnew⟩
          rw [hsplit]
          rw [hrest] at ha₀
          rcases List.mem_append.mp ha₀ with h' | h'
          · exact List.mem_append.mpr (Or.inl h')
          · exact List.mem_append.mpr (Or.inr (by simp [h']))
      · obtain ⟨a₀, ha₀, hid, hnew⟩ :=
          ih rest a (List.mem_append.mpr (Or.inr hlocal))
        refine ⟨a₀, ?_, hid, hnew⟩
        rw [hsplit]
        rw [hrest] at ha₀
        rcases List.mem_append.mp ha₀ with h' | h'
        · exact List.mem_append.mpr (Or.inl h')
        · exact List.mem_append.mpr (Or.inr (by simp [h']))

theorem adaptLocalCastList_mem (embyMap : List (String × Option String))
    (records : List RawCastRecord) :
    ∀ a ∈ adaptLocalCastList embyMap records,
      ∃ r ∈ records, adaptCastEntry embyMap r = some a := by
  intro a ha
  obtain ⟨r, hr, h⟩ := List.mem_filterMap.mp ha
  exact ⟨r, hr, h⟩

theorem formatAndCompleteCastList_length (ctx : Ctx) (isAnimation : Bool)
    (cast : List CastActor) :
    (formatAndCompleteCastList ctx isAnimation cast).length = cast.length := by
  simp [formatAndCompleteCastList]

theorem formatAndCompleteCastList_mem (ctx : Ctx) (isAnimation : Bool)
    (cast : List CastActor) :
    ∀ a' ∈ formatAndCompleteCastList ctx isAnimation cast,
      ∃ a ∈ cast, a'.id = a.id ∧ a'.newlyAdded = a.newlyAdded := by
  intro a' ha'
  obtain ⟨a, ha, rfl⟩ := List.mem_map.mp ha'
  exact ⟨a, ha, rfl, rfl⟩

/-! Combined structural properties of the assembled match stages. -/

theorem matchStages_props (ctx : Ctx) (orc : Oracles) (db : Db)
    (records : List RawCastRecord) (embyCast : List EmbyPerson)
    (cands : List DoubanCandidate) :
    ((matchStages ctx orc db records embyCast cands).1.translation = db.translation)
    ∧ (∀ e ∈ (matchStages ctx orc db records embyCast cands).2.1,
        e.isMatchStageEvent = true)
    ∧ (ctx.stop = false → (∀ s, orc.metaCacheFails s = false) →
        ∃ cast, (matchStages ctx orc db records embyCast cands).2.2 = .ok cast)
    ∧ (∀ cast, (matchStages ctx orc db records embyCast cands).2.2 = .ok cast →
        ∀ a ∈ cast,
          a ∈ castMapValues (baselineWorkingMap ctx records embyCast cands)
            ∨ a.newlyAdded = true) := by
  by_cases hcap : parseMaxActors ctx.maxActorsConfig
      ≤ ((baselineWorkingMap ctx records embyCast cands).length : Int)
  · have hstep : matchStages ctx orc db records embyCast cands
        = (db, [],
            .ok (castMapValues (baselineWorkingMap ctx records embyCast cands))) := by
      simp [matchStages, hcap]
    rw [hstep]
    refine ⟨rfl, by simp, fun _ _ => ⟨_, rfl⟩, ?_⟩
    intro cast hcast a ha
    simp only [Except.ok.injEq] at hcast
    subst hcast
    exact Or.inl ha
  · rcases h2 : matchStage2 ctx orc db
        (unmatchedDoubanAfterOneToOne ctx records embyCast cands)
        (baselineWorkingMap ctx records embyCast cands) [] [] with ⟨evs2, r2⟩
    have hprops2 := matchStage2_props ctx orc db
      (unmatchedDoubanAfterOneToOne ctx records embyCast cands)
      (baselineWorkingMap ctx records embyCast cands) [] []
    rw [h2] at hprops2
    obtain ⟨⟨delta2, hdelta2, hall2⟩, htot2, hvals2⟩ := hprops2
    simp only [List.nil_append] at hdelta2
    subst hdelta2
    cases r2 with
    | error e =>
      have hstep : matchStages ctx orc db records embyCast cands
          = (db, evs2, .error e) := by
        simp [matchStages, hcap, h2]
      rw [hstep]
      refine ⟨rfl, hall2, ?_, ?_⟩
      · intro hstop hmeta
        obtain ⟨p, hp⟩ := htot2 hstop hmeta
        simp at hp
      · intro cast hcast
        simp at hcast
    | ok pr =>
      obtain ⟨m1, un1⟩ := pr
      rcases h34 : matchStage34 ctx orc (parseMaxActors ctx.maxActorsConfig)
          un1 m1 [] db evs2 with ⟨db34, rest34⟩
      obtain ⟨evs34, r34⟩ := rest34
      have hprops34 := matchStage34_props ctx orc (parseMaxActors ctx.maxActorsConfig)
        un1 m1 [] db evs2
      rw [h34] at hprops34
      obtain ⟨⟨delta34, hdelta34, hall34⟩, htot34, hvals34, htr34⟩ := hprops34
      simp only at hdelta34 htr34
      subst hdelta34
      have hallEvents : ∀ e ∈ evs2 ++ delta34, e.isMatchStageEvent = true :=
        forall_mem_append_event _ _ _ hall2 hall34
      cases r34 with
      | error e =>
        have hstep : matchStages ctx orc db records embyCast cands
            = (db34, evs2 ++ delta34, .error e) := by
          simp [matchStages, hcap, h2, h34]
        rw [hstep]
        refine ⟨htr34, hallEvents, ?_, ?_⟩
        · intro hstop hmeta
          obtain ⟨p, hp⟩ := htot34 hstop hmeta
          simp at hp
        · intro cast hcast
          simp at hcast
      | ok pr34 =>
        obtain ⟨m2, un2⟩ := pr34
        have hstep : matchStages ctx orc db records embyCast cands
            = (db34, evs2 ++ delta34, .ok (castMapValues m2)) := by
          simp [matchStages, hcap, h2, h34]
        rw [hstep]
        refine ⟨htr34, hallEvents, fun _ _ => ⟨_, rfl⟩, ?_⟩
        intro cast hcast a ha
        simp only [Except.ok.injEq] at hcast
        subst hcast
        rcases hvals34 m2 un2 (by simp) a ha with h1 | h1
        · rcases hvals2 m1 un1 (by simp) a h1 with h0 | h0
          · exact Or.inl h0
          · exact Or.inr h0
        · exact Or.inr h1

/-! Plumbing: the two outcomes of the pipeline in terms of the match
stages. -/

theorem processCastListFromApi_error (ctx : Ctx) (orc : Oracles) (db : Db)
    (bt : List String → Except Unit (List (String × String)))
    (records : List RawCastRecord) (embyCast : List EmbyPerson)
    (cands : List DoubanCandidate) (isAnim : Bool) (db1 : Db)
    (evs1 : List Event) (e : PipeError)
    (hms : matchStages ctx orc db records embyCast cands = (db1, evs1, .error e)) :
    processCastListFromApi ctx orc db bt records embyCast cands isAnim
      = (db1, evs1, .error e) := by
  simp [processCastListFromApi, hms]

theorem processCastListFromApi_ok (ctx : Ctx) (orc : Oracles) (db : Db)
    (bt : List String → Except Unit (List (String × String)))
    (records : List RawCastRecord) (embyCast : List EmbyPerson)
    (cands : List DoubanCandidate) (isAnim : Bool) (db1 : Db)
    (evs1 : List Event) (cast : List CastActor)
    (hms : matchStages ctx orc db records embyCast cands = (db1, evs1, .ok cast)) :
    processCastListFromApi ctx orc db bt records embyCast cands isAnim
      = ((translationStage ctx (fullWriteBack db1 evs1 cast).1 bt
            (truncateCastList (parseMaxActors ctx.maxActorsConfig) cast)
            (fullWriteBack db1 evs1 cast).2).1,
          (translationStage ctx (fullWriteBack db1 evs1 cast).1 bt
            (truncateCastList (parseMaxActors ctx.maxActorsConfig) cast)
            (fullWriteBack db1 evs1 cast).2).2.1,
          .ok (formatAndCompleteCastList ctx isAnim
            (translationStage ctx (fullWriteBack db1 evs1 cast).1 bt
              (truncateCastList (parseMaxActors ctx.maxActorsConfig) cast)
              (fullWriteBack db1 evs1 cast).2).2.2)) := by
  simp [processCastListFromApi, hms]

/-- Claim C1: every successful reconciliation returns a final cast list of
length at most the configured cap; the cap is read with default 30, a
non-positive configured value falls back to 30, a string that does not
parse as an integer falls back to 30, a non-coercible (null) value falls
back to 30, and the effective cap is always positive. -/
theorem c1_cap_invariant :
    (∀ (ctx : Ctx) (orc : Oracles) (db : Db)
        (bt : List String → Except Unit (List (String × String)))
        (records : List RawCastRecord) (embyCast : List EmbyPerson)
        (cands : List DoubanCandidate) (isAnim : Bool) (db' : Db)
        (evs' : List Event) (final : List CastActor),
        processCastListFromApi ctx orc db bt records embyCast cands isAnim
          = (db', evs', .ok final) →
        (final.length : Int) ≤ parseMaxActors ctx.maxActorsConfig)
    ∧ parseMaxActors .absent = 30
    ∧ (∀ n : Int, n ≤ 0 → parseMaxActors (.intVal n) = 30)
    ∧ (∀ s : String, pyParseInt s = none → parseMaxActors (.strVal s) = 30)
    ∧ parseMaxActors .nullVal = 30
    ∧ (∀ v, 0 < parseMaxActors v) := by
  refine ⟨?_, rfl, ?_, ?_, rfl, parseMaxActors_pos⟩
  · intro ctx orc db bt records embyCast cands isAnim db' evs' final h
    rcases hms : matchStages ctx orc db records embyCast cands with ⟨db1, evs1, r⟩
    cases r with
    | error e =>
      rw [processCastListFromApi_error ctx orc db bt records embyCast cands isAnim
        db1 evs1 e hms] at h
      simp at h
    | ok cast =>
      rw [processCastListFromApi_ok ctx orc db bt records embyCast cands isAnim
        db1 evs1 cast hms] at h
      simp only [Prod.mk.injEq, Except.ok.injEq] at h
      obtain ⟨-, -, hfinal⟩ := h
      subst hfinal
      rw [formatAndCompleteCastList_length,
        (translationStage_props ctx (fullWriteBack db1 evs1 cast).1 bt
          (truncateCastList (parseMaxActors ctx.maxActorsConfig) cast)
          (fullWriteBack db1 evs1 cast).2).2.1]
      exact truncateCastList_length_le _ _ (parseMaxActors_pos _)
  · intro n h
    simp [parseMaxActors, h]
  · intro s h
    simp [parseMaxActors, h]

/-- Witness for C1: a one-record run returns one member, within the default
cap of 30. -/
theorem c1_cap_invariant_witness :
    (([sampleJohnAdapted].length : Int)) ≤ parseMaxActors sampleCtxNoAi.maxActorsConfig :=
  c1_cap_invariant.1 sampleCtxNoAi sampleOrc ⟨[], []⟩ sampleBt [sampleRecordJohn] [] []
    false ⟨[⟨some "1", none, none, some "John"⟩], []⟩
    [Event.upsertPerson ⟨"1", some "John", none, none⟩]
    [sampleJohnAdapted] (by decide)

/-- Claim C2 is false as stated: a storage error raised while reading the
actor-metadata cache during one candidate's stage-2 processing (candidate
d9, whose mapped TMDb id 9 triggers the error) is not caught per candidate;
the whole run aborts with an error instead of returning a final cast list,
and the session is recorded as failed. -/
theorem c2_counterexample :
    (processCastListFromApi sampleCtx sampleOrcMetaFail sampleDbD9 sampleBt
        [sampleRecordJohn] [] [sampleCandidateNoMatch] false).2.2
      = .error .dbError
    ∧ sessionOutcome (processCastListFromApi sampleCtx sampleOrcMetaFail sampleDbD9
        sampleBt [sampleRecordJohn] [] [sampleCandidateNoMatch] false).2.2
      = ⟨false, false⟩ :=
  ⟨by decide, by decide⟩

/-- Claim C2 (amended): the per-candidate identity-map lookups catch their
own storage errors — with cancellation off and the (unguarded)
metadata-cache reads succeeding, the reconciliation completes and returns a
final cast list for arbitrary lookup-failure behaviour, each failed
candidate merely being discarded; an exception elsewhere in a candidate's
processing (for example in the metadata-cache read) is not caught per
candidate and propagates to the session boundary. -/
theorem c2_candidate_errors_amended :
    ∀ (ctx : Ctx) (orc : Oracles) (db : Db)
      (bt : List String → Except Unit (List (String × String)))
      (records : List RawCastRecord) (embyCast : List EmbyPerson)
      (cands : List DoubanCandidate) (isAnim : Bool),
      ctx.stop = false → (∀ s, orc.metaCacheFails s = false) →
      ∃ db' evs' final,
        processCastListFromApi ctx orc db bt records embyCast cands isAnim
          = (db', evs', .ok final) := by
  intro ctx orc db bt records embyCast cands isAnim hstop hmeta
  obtain ⟨cast, hok⟩ :=
    (matchStages_props ctx orc db records embyCast cands).2.2.1 hstop hmeta
  rcases hms : matchStages ctx orc db records embyCast cands with ⟨db1, evs1, r⟩
  rw [hms] at hok
  cases r with
  | error e =>
    simp at hok
  | ok cast' =>
    exact ⟨_, _, _, processCastListFromApi_ok ctx orc db bt records embyCast cands
      isAnim db1 evs1 cast' hms⟩

/-- Witness for the amended C2: with every Douban-id lookup raising (and
caught), the run still completes. -/
theorem c2_candidate_errors_amended_witness :
    ∃ db' evs' final,
      processCastListFromApi sampleCtx sampleOrcLookupFail sampleDbD9 sampleBt
        [sampleRecordJohn] [] [sampleCandidateNoMatch] false
        = (db', evs', .ok final) :=
  c2_candidate_errors_amended sampleCtx sampleOrcLookupFail sampleDbD9 sampleBt
    [sampleRecordJohn] [] [sampleCandidateNoMatch] false rfl (fun _ => rfl)

/-- Claim C3 is false as stated: with the cancellation flag raised before
any match stage, a run whose only regional candidate is consumed by pass A
never reaches a stop check — the full write-back still upserts an identity
row and the session ends successfully, not aborted. -/
theorem c3_counterexample :
    Event.upsertPerson ⟨"1", some "约翰", none, some "d1"⟩
        ∈ (processCastListFromApi sampleCtxStopped sampleOrc ⟨[], []⟩
            sampleBt [sampleRecordJohn] [] [sampleCandidateYuehan] false).2.1
    ∧ sessionOutcome (processCastListFromApi sampleCtxStopped sampleOrc
        ⟨[], []⟩ sampleBt [sampleRecordJohn] [] [sampleCandidateYuehan] false).2.2
      = ⟨true, true⟩ :=
  ⟨by decide, by decide⟩

/-- Claim C3 (amended): if the cancellation flag is set before the match
stages, the working set is below the cap, and at least one regional
candidate is still unmatched when stage 2 begins, then the stage-2 stop
check raises the distinct interrupted condition before any identity-store
write — the run ends with an empty event trace (in particular no upsert)
and the session-level handler reports failure without committing. -/
theorem c3_cancellation_amended :
    ∀ (ctx : Ctx) (orc : Oracles) (db : Db)
      (bt : List String → Except Unit (List (String × String)))
      (records : List RawCastRecord) (embyCast : List EmbyPerson)
      (cands : List DoubanCandidate) (isAnim : Bool),
      ctx.stop = true →
      ((baselineWorkingMap ctx records embyCast cands).length : Int)
          < parseMaxActors ctx.maxActorsConfig →
      ¬unmatchedDoubanAfterOneToOne ctx records embyCast cands = [] →
      processCastListFromApi ctx orc db bt records embyCast cands isAnim
          = (db, [], .error .interrupted)
        ∧ sessionOutcome (processCastListFromApi ctx orc db bt records embyCast
            cands isAnim).2.2 = ⟨false, false⟩ := by
  intro ctx orc db bt records embyCast cands isAnim hstop hcap hne
  obtain ⟨d, rest, hq⟩ := List.exists_cons_of_ne_nil hne
  have hs2 : matchStage2 ctx orc db
      (unmatchedDoubanAfterOneToOne ctx records embyCast cands)
      (baselineWorkingMap ctx records embyCast cands) [] []
      = ([], .error .interrupted) := by
    rw [hq]
    simp [matchStage2, hstop]
  have hcap' : ¬parseMaxActors ctx.maxActorsConfig
      ≤ ((baselineWorkingMap ctx records embyCast cands).length : Int) :=
    not_le.mpr hcap
  have hms : matchStages ctx orc db records embyCast cands
      = (db, [], .error .interrupted) := by
    simp [matchStages, hcap', hs2]
  have h := processCastListFromApi_error ctx orc db bt records embyCast cands
    isAnim db [] .interrupted hms
  rw [h]
  exact ⟨rfl, rfl⟩

/-- Witness for the amended C3: a stopped run with one unmatched candidate
aborts with no events. -/
theorem c3_cancellation_amended_witness :
    processCastListFromApi sampleCtxStopped sampleOrc ⟨[], []⟩ sampleBt
        [sampleRecordJohn] [] [sampleCandidateNoMatch] false
      = (⟨[], []⟩, [], .error .interrupted)
    ∧ sessionOutcome (processCastListFromApi sampleCtxStopped sampleOrc ⟨[], []⟩
        sampleBt [sampleRecordJohn] [] [sampleCandidateNoMatch] false).2.2
      = ⟨false, false⟩ :=
  c3_cancellation_amended sampleCtxStopped sampleOrc ⟨[], []⟩ sampleBt
    [sampleRecordJohn] [] [sampleCandidateNoMatch] false rfl (by decide) (by decide)

/-- Claim C5: if the working set has already reached the cap when pass A
ends, stages 2-4 are skipped — the whole run performs no identity-store
lookup and no per-candidate network call (all remaining candidates are
discarded), the run still succeeds, and the final cast length equals the
cap exactly. -/
theorem c5_cap_skips_stages :
    ∀ (ctx : Ctx) (orc : Oracles) (db : Db)
      (bt : List String → Except Unit (List (String × String)))
      (records : List RawCastRecord) (embyCast : List EmbyPerson)
      (cands : List DoubanCandidate) (isAnim : Bool),
      parseMaxActors ctx.maxActorsConfig
          ≤ ((baselineWorkingMap ctx records embyCast cands).length : Int) →
      (∃ final,
          (processCastListFromApi ctx orc db bt records embyCast cands isAnim).2.2
            = .ok final
          ∧ (final.length : Int) = parseMaxActors ctx.maxActorsConfig)
      ∧ (processCastListFromApi ctx orc db bt records embyCast cands isAnim).2.1.filter
          Event.isCandidateLookup = [] := by
  intro ctx orc db bt records embyCast cands isAnim hcap
  have hms : matchStages ctx orc db records embyCast cands
      = (db, [], .ok (castMapValues (baselineWorkingMap ctx records embyCast cands))) := by
    simp [matchStages, hcap]
  rw [processCastListFromApi_ok ctx orc db bt records embyCast cands isAnim db []
    (castMapValues (baselineWorkingMap ctx records embyCast cands)) hms]
  constructor
  · refine ⟨_, rfl, ?_⟩
    rw [formatAndCompleteCastList_length,
      (translationStage_props ctx
        (fullWriteBack db [] (castMapValues (baselineWorkingMap ctx records embyCast cands))).1
        bt
        (truncateCastList (parseMaxActors ctx.maxActorsConfig)
          (castMapValues (baselineWorkingMap ctx records embyCast cands)))
        (fullWriteBack db [] (castMapValues (baselineWorkingMap ctx records embyCast cands))).2).2.1]
    refine truncateCastList_length_eq _ _ (parseMaxActors_pos _) ?_
    simpa [castMapValues] using hcap
  · obtain ⟨delta, hdelta, hall⟩ := (translationStage_props ctx
      (fullWriteBack db [] (castMapValues (baselineWorkingMap ctx records embyCast cands))).1
      bt
      (truncateCastList (parseMaxActors ctx.maxActorsConfig)
        (castMapValues (baselineWorkingMap ctx records embyCast cands)))
      (fullWriteBack db [] (castMapValues (baselineWorkingMap ctx records embyCast cands))).2).1
    rw [hdelta, fullWriteBack_events]
    apply filter_eq_nil_event
    intro e he
    rcases List.mem_append.mp he with h | h
    · rcases List.mem_append.mp h with h' | h'
      · simp at h'
      · obtain ⟨a, -, rfl⟩ := List.mem_map.mp h'
        rfl
    · exact (translationPhaseEvent_kinds e (hall e h)).1

/-- Witness for C5: with a configured cap of 1 and two baseline actors the
run succeeds with exactly one member and no candidate lookup. -/
theorem c5_cap_skips_stages_witness :
    (∃ final,
        (processCastListFromApi sampleCtxCapOne sampleOrc ⟨[], []⟩ sampleBt
            [sampleRecordJohn, sampleRecordJane] [] [sampleCandidateNoMatch]
            false).2.2 = .ok final
        ∧ (final.length : Int) = parseMaxActors sampleCtxCapOne.maxActorsConfig)
    ∧ (processCastListFromApi sampleCtxCapOne sampleOrc ⟨[], []⟩ sampleBt
        [sampleRecordJohn, sampleRecordJane] [] [sampleCandidateNoMatch]
        false).2.1.filter Event.isCandidateLookup = [] :=
  c5_cap_skips_stages sampleCtxCapOne sampleOrc ⟨[], []⟩ sampleBt
    [sampleRecordJohn, sampleRecordJane] [] [sampleCandidateNoMatch] false (by decide)

/-- Claim C6: immediately before the final truncation an identity upsert is
issued for every member of the working list — the run's event trace
contains, right after the match-stage events, one upsert per working-set
member (including members the truncation then removes), and the upserted
TMDb ids are exactly the working set's ids. -/
theorem c6_full_writeback :
    ∀ (ctx : Ctx) (orc : Oracles) (db : Db)
      (bt : List String → Except Unit (List (String × String)))
      (records : List RawCastRecord) (embyCast : List EmbyPerson)
      (cands : List DoubanCandidate) (isAnim : Bool) (db1 : Db)
      (evs1 : List Event) (cast : List CastActor),
      matchStages ctx orc db records embyCast cands = (db1, evs1, .ok cast) →
      (∃ tail,
          (processCastListFromApi ctx orc db bt records embyCast cands isAnim).2.1
            = evs1 ++ cast.map (fun a => Event.upsertPerson (wbPayload a)) ++ tail)
      ∧ cast.map (fun a => (wbPayload a).tmdbId) = cast.map CastActor.id := by
  intro ctx orc db bt records embyCast cands isAnim db1 evs1 cast hms
  rw [processCastListFromApi_ok ctx orc db bt records embyCast cands isAnim db1
    evs1 cast hms]
  constructor
  · obtain ⟨delta, hdelta, -⟩ := (translationStage_props ctx
      (fullWriteBack db1 evs1 cast).1 bt
      (truncateCastList (parseMaxActors ctx.maxActorsConfig) cast)
      (fullWriteBack db1 evs1 cast).2).1
    refine ⟨delta, ?_⟩
    rw [hdelta, fullWriteBack_events]
  · rfl

/-- Witness for C6: a one-member working set produces exactly its upsert. -/
theorem c6_full_writeback_witness :
    (∃ tail,
        (processCastListFromApi sampleCtx sampleOrc ⟨[], []⟩ sampleBt
            [sampleRecordJohn] [] [] false).2.1
          = [] ++ [sampleJohnAdapted].map
              (fun a => Event.upsertPerson (wbPayload a)) ++ tail)
    ∧ [sampleJohnAdapted].map (fun a => (wbPayload a).tmdbId)
        = [sampleJohnAdapted].map CastActor.id :=
  c6_full_writeback sampleCtx sampleOrc ⟨[], []⟩ sampleBt [sampleRecordJohn] [] []
    false ⟨[], []⟩ [] [sampleJohnAdapted] (by decide)

/-- Claim C7: in `fast` (cached) mode a run whose every collected text of
the capped set is already in the translation cache never calls
`batch_translate`; outside `fast` mode the persistent translation cache is
neither read nor written during the whole run. -/
theorem c7_translation_cache :
    (∀ (ctx : Ctx) (orc : Oracles) (db : Db)
        (bt : List String → Except Unit (List (String × String)))
        (records : List RawCastRecord) (embyCast : List EmbyPerson)
        (cands : List DoubanCandidate) (isAnim : Bool) (db1 : Db)
        (evs1 : List Event) (cast : List CastActor),
        ctx.translationMode = "fast" →
        matchStages ctx orc db records embyCast cands = (db1, evs1, .ok cast) →
        (∀ t ∈ collectTranslateTexts ctx
            (truncateCastList (parseMaxActors ctx.maxActorsConfig) cast),
          (lookupTranslationDb db t).isSome) →
        (processCastListFromApi ctx orc db bt records embyCast cands isAnim).2.1.filter
          Event.isTranslateApi = [])
    ∧ (∀ (ctx : Ctx) (orc : Oracles) (db : Db)
        (bt : List String → Except Unit (List (String × String)))
        (records : List RawCastRecord) (embyCast : List EmbyPerson)
        (cands : List DoubanCandidate) (isAnim : Bool),
        ¬ctx.translationMode = "fast" →
        (processCastListFromApi ctx orc db bt records embyCast cands isAnim).2.1.filter
          Event.isTranslationCacheAccess = []) := by
  constructor
  · intro ctx orc db bt records embyCast cands isAnim db1 evs1 cast hfast hms hcache
    rw [processCastListFromApi_ok ctx orc db bt records embyCast cands isAnim db1
      evs1 cast hms]
    have htr1 : db1.translation = db.translation := by
      have h := (matchStages_props ctx orc db records embyCast cands).1
      rw [hms] at h
      exact h
    have hcache' : ∀ t ∈ collectTranslateTexts ctx
        (truncateCastList (parseMaxActors ctx.maxActorsConfig) cast),
        (lookupTranslationDb (fullWriteBack db1 evs1 cast).1 t).isSome := by
      intro t ht
      have heq : lookupTranslationDb (fullWriteBack db1 evs1 cast).1 t
          = lookupTranslationDb db t := by
        simp [lookupTranslationDb, fullWriteBack_translation, htr1]
      rw [heq]
      exact hcache t ht
    rw [(translationStage_props ctx (fullWriteBack db1 evs1 cast).1 bt
      (truncateCastList (parseMaxActors ctx.maxActorsConfig) cast)
      (fullWriteBack db1 evs1 cast).2).2.2.2.2.2 hfast hcache',
      fullWriteBack_events]
    apply filter_eq_nil_event
    intro e he
    rcases List.mem_append.mp he with h | h
    · have hmsEv := (matchStages_props ctx orc db records embyCast cands).2.1
      rw [hms] at hmsEv
      exact (matchStageEvent_kinds e (hmsEv e h)).2.2
    · obtain ⟨a, -, rfl⟩ := List.mem_map.mp h
      rfl
  · intro ctx orc db bt records embyCast cands isAnim hfast
    rcases hms : matchStages ctx orc db records embyCast cands with ⟨db1, evs1, r⟩
    have hmsEv := (matchStages_props ctx orc db records embyCast cands).2.1
    rw [hms] at hmsEv
    cases r with
    | error e =>
      rw [processCastListFromApi_error ctx orc db bt records embyCast cands isAnim
        db1 evs1 e hms]
      apply filter_eq_nil_event
      intro e' he'
      exact (matchStageEvent_kinds e' (hmsEv e' he')).2.1
    | ok cast =>
      rw [processCastListFromApi_ok ctx orc db bt records embyCast cands isAnim db1
        evs1 cast hms]
      rw [(translationStage_props ctx (fullWriteBack db1 evs1 cast).1 bt
        (truncateCastList (parseMaxActors ctx.maxActorsConfig) cast)
        (fullWriteBack db1 evs1 cast).2).2.2.2.1 hfast,
        fullWriteBack_events]
      apply filter_eq_nil_event
      intro e' he'
      rcases List.mem_append.mp he' with h | h
      · exact (matchStageEvent_kinds e' (hmsEv e' h)).2.1
      · obtain ⟨a, -, rfl⟩ := List.mem_map.mp h
        rfl

/-- Witness for C7: both collected texts (John and Lead) are cached, so no
translator call appears in the trace. -/
theorem c7_translation_cache_witness :
    (processCastListFromApi sampleCtx sampleOrc sampleDbTrans sampleBt
        [sampleRecordJohn] [] [] false).2.1.filter Event.isTranslateApi = [] :=
  c7_translation_cache.1 sampleCtx sampleOrc sampleDbTrans sampleBt
    [sampleRecordJohn] [] [] false sampleDbTrans [] [sampleJohnAdapted]
    rfl (by decide) (by decide)

/-- Claim C8: a raising `batch_translate` abandons the translation phase
with every member's name and character unchanged and no storage write, and
the translation phase can never turn a successful reconciliation into a
failure — the run's overall success is exactly the match stages' success,
whatever the translator does. -/
theorem c8_translator_error :
    (∀ (ctx : Ctx) (db : Db)
        (bt : List String → Except Unit (List (String × String)))
        (cast : List CastActor) (evs : List Event),
        ¬textsToSendToApi ctx db cast = [] →
        bt (textsToSendToApi ctx db cast) = .error () →
        (translationStage ctx db bt cast evs).2.2 = cast
          ∧ (translationStage ctx db bt cast evs).1 = db)
    ∧ (∀ (ctx : Ctx) (orc : Oracles) (db : Db)
        (bt : List String → Except Unit (List (String × String)))
        (records : List RawCastRecord) (embyCast : List EmbyPerson)
        (cands : List DoubanCandidate) (isAnim : Bool),
        (processCastListFromApi ctx orc db bt records embyCast cands isAnim).2.2.isOk
          = (matchStages ctx orc db records embyCast cands).2.2.isOk) := by
  constructor
  · intro ctx db bt cast evs hne herr
    exact (translationStage_props ctx db bt cast evs).2.2.2.2.1 hne herr
  · intro ctx orc db bt records embyCast cands isAnim
    rcases hms : matchStages ctx orc db records embyCast cands with ⟨db1, evs1, r⟩
    cases r with
    | error e =>
      rw [processCastListFromApi_error ctx orc db bt records embyCast cands isAnim
        db1 evs1 e hms]
    | ok cast =>
      rw [processCastListFromApi_ok ctx orc db bt records embyCast cands isAnim db1
        evs1 cast hms]
      rfl

/-- Witness for C8: an always-raising translator leaves the one-member
capped list and the storage untouched. -/
theorem c8_translator_error_witness :
    (translationStage sampleCtx ⟨[], []⟩ sampleBtErr [sampleJohnAdapted] []).2.2
        = [sampleJohnAdapted]
    ∧ (translationStage sampleCtx ⟨[], []⟩ sampleBtErr [sampleJohnAdapted] []).1
        = ⟨[], []⟩ :=
  c8_translator_error.1 sampleCtx ⟨[], []⟩ sampleBtErr [sampleJohnAdapted] []
    (by decide) rfl

/-- Claim C10: the adaptation layer drops every raw record that resolves no
TMDb id — one lacking both the `id` key and a truthy `ProviderIds.Tmdb`,
or resolving to the string `str(None)` produces — and every member of a
successful run's final cast is either flagged newly added (synthesised in
stages 2-4) or carries the id of some adapted input record, so a dropped
record can never appear in the returned list. -/
theorem c10_adaptation_drops :
    (∀ (embyMap : List (String × Option String)) (r : RawCastRecord),
        r.idField = none →
        (∀ p, r.providerTmdbId = some p → p = "") →
        adaptCastEntry embyMap r = none)
    ∧ (∀ (embyMap : List (String × Option String)) (r : RawCastRecord),
        rawTmdbId r = some "None" → adaptCastEntry embyMap r = none)
    ∧ (∀ (ctx : Ctx) (orc : Oracles) (db : Db)
        (bt : List String → Except Unit (List (String × String)))
        (records : List RawCastRecord) (embyCast : List EmbyPerson)
        (cands : List DoubanCandidate) (isAnim : Bool) (db' : Db)
        (evs' : List Event) (final : List CastActor),
        processCastListFromApi ctx orc db bt records embyCast cands isAnim
          = (db', evs', .ok final) →
        ∀ a ∈ final, a.newlyAdded = true
          ∨ ∃ r ∈ records, ∃ a₀,
              adaptCastEntry (buildEmbyIdMap embyCast) r = some a₀
                ∧ a₀.id = a.id) := by
  refine ⟨?_, ?_, ?_⟩
  · intro embyMap r h1 h2
    cases hp : r.providerTmdbId with
    | none => simp [adaptCastEntry, rawTmdbId, h1, hp]
    | some p =>
      have hp' := h2 p hp
      simp [adaptCastEntry, rawTmdbId, h1, hp, hp']
  · intro embyMap r h
    simp [adaptCastEntry, h]
  · intro ctx orc db bt records embyCast cands isAnim db' evs' final h a ha
    rcases hms : matchStages ctx orc db records embyCast cands with ⟨db1, evs1, rr⟩
    cases rr with
    | error e =>
      rw [processCastListFromApi_error ctx orc db bt records embyCast cands isAnim
        db1 evs1 e hms] at h
      simp at h
    | ok cast =>
      rw [processCastListFromApi_ok ctx orc db bt records embyCast cands isAnim db1
        evs1 cast hms] at h
      simp only [Prod.mk.injEq, Except.ok.injEq] at h
      obtain ⟨-, -, hfin⟩ := h
      subst hfin
      obtain ⟨a1, ha1, hid1, hnew1⟩ := formatAndCompleteCastList_mem ctx isAnim _ a ha
      obtain ⟨a2, ha2, hid2, hnew2⟩ := (translationStage_props ctx
        (fullWriteBack db1 evs1 cast).1 bt
        (truncateCastList (parseMaxActors ctx.maxActorsConfig) cast)
        (fullWriteBack db1 evs1 cast).2).2.2.1 a1 ha1
      have ha3 : a2 ∈ cast := truncateCastList_subset _ _ a2 ha2
      have hvals := (matchStages_props ctx orc db records embyCast cands).2.2.2
      rw [hms] at hvals
      rcases hvals cast rfl a2 ha3 with hmem | hnew
      · have hbw : baselineWorkingMap ctx records embyCast cands
            = buildFinalCastMap
                ((oneToOneMatch ctx cands
                    (adaptLocalCastList (buildEmbyIdMap embyCast) records)).merged
                  ++ (oneToOneMatch ctx cands
                      (adaptLocalCastList (buildEmbyIdMap embyCast) records)).unmatchedLocal) :=
          rfl
        rw [hbw] at hmem
        have hb := buildFinalCastMap_values_subset _ a2 hmem
        obtain ⟨a₀, ha₀, hid0, hnew0⟩ := oneToOneMatch_member_ids ctx cands
          (adaptLocalCastList (buildEmbyIdMap embyCast) records) a2 hb
        obtain ⟨r, hr, hadapt⟩ := adaptLocalCastList_mem _ records a₀ ha₀
        exact Or.inr ⟨r, hr, a₀, hadapt, (hid1.trans (hid2.trans hid0)).symm⟩
      · exact Or.inl (hnew1.trans (hnew2.trans hnew))

/-- Witness for C10: a run over the John record plus a dropped id-less
record yields a final member tracing back to the John record. -/
theorem c10_adaptation_drops_witness :
    sampleJohnAdapted.newlyAdded = true
      ∨ ∃ r ∈ [sampleRecordJohn, sampleBadRecord], ∃ a₀,
          adaptCastEntry (buildEmbyIdMap []) r = some a₀
            ∧ a₀.id = sampleJohnAdapted.id :=
  c10_adaptation_drops.2.2 sampleCtxNoAi sampleOrc ⟨[], []⟩ sampleBt
    [sampleRecordJohn, sampleBadRecord] [] [] false
    ⟨[⟨some "1", none, none, some "John"⟩], []⟩
    [Event.upsertPerson ⟨"1", some "John", none, none⟩]
    [sampleJohnAdapted] (by decide) sampleJohnAdapted (by decide)

end EmbyToolkit
